import Mathlib

set_option maxHeartbeats 1000000

/-!
Verification of the ralph-for-kiro iteration-control loop.

Strings from the Python source are modeled as `List Char` (ASCII fragment:
Python's Unicode-aware lowercasing, whitespace classes and case folding are
modeled on their ASCII part, which is the alphabet the program's markers,
YAML headers and timestamps are drawn from).
-/

namespace RalphWiggum

/-- Python regex `\s` / `str.strip` whitespace (ASCII fragment of Python's
Unicode whitespace class). -/
def isPyWs (c : Char) : Bool :=
  c = ' ' || c = '\t' || c = '\n' || c = '\r' || c = '\x0b' || c = '\x0c'

/-- Case-insensitive character comparison, modeling `re.IGNORECASE`
(ASCII lowering). -/
def ciEq (a b : Char) : Bool := a.toLower == b.toLower

/-- Case-insensitive list equality. -/
def ciListEq : List Char → List Char → Bool
  | [], [] => true
  | a :: as, b :: bs => ciEq a b && ciListEq as bs
  | [], _ :: _ => false
  | _ :: _, [] => false

/-- Strip `pat` from the front of `l`, comparing case-insensitively; returns
the rest on success.  Models matching a literal (escaped) regex fragment
under `re.IGNORECASE`. -/
def stripCI : List Char → List Char → Option (List Char)
  | [], rest => some rest
  | _ :: _, [] => none
  | p :: ps, c :: cs => if ciEq p c then stripCI ps cs else none

/-- Length of the maximal leading whitespace run (what `\s*` may consume). -/
def wsCount : List Char → Nat
  | [] => 0
  | c :: cs => if isPyWs c then wsCount cs + 1 else 0

def openTag : List Char := "<promise>".data

def closeTag : List Char := "</promise>".data

/-- The regex `<promise>\s*PHRASE\s*</promise>` (phrase escaped), with
`re.IGNORECASE`, matched at the start of `text`: some number of leading
whitespace characters is consumed by each `\s*` (regex backtracking tries
every count, so matching is existential over the counts). -/
def promiseMatchAt (phrase text : List Char) : Bool :=
  match stripCI openTag text with
  | none => false
  | some r1 =>
    (List.range (wsCount r1 + 1)).any fun k =>
      match stripCI phrase (r1.drop k) with
      | none => false
      | some r2 =>
        (List.range (wsCount r2 + 1)).any fun j =>
          (stripCI closeTag (r2.drop j)).isSome

/-- `re.search`: the pattern matches at some position of `text`. -/
def promiseSearch (phrase : List Char) : List Char → Bool
  | [] => promiseMatchAt phrase []
  | c :: cs => promiseMatchAt phrase (c :: cs) || promiseSearch phrase cs

/-! ### Conversation model (models/session.py)

The Kiro store payload is JSON; `HistoryTurn.user` and `HistoryTurn.assistant`
are `dict[str, Any] | None` in the source, modeled as optional association
lists over a small JSON value type. -/

inductive Json where
  | null
  | bool (b : Bool)
  | int (n : Int)
  | str (s : String)
  | arr (xs : List Json)
  | obj (fields : List (String × Json))

/-- Python `key in d` / `d[key]` on a (unique-key) dict. -/
def jLookup (k : String) : List (String × Json) → Option Json
  | [] => none
  | (k', v) :: rest => if k' = k then some v else jLookup k rest

structure HistoryTurn where
  user : Option (List (String × Json)) := none
  assistant : Option (List (String × Json)) := none

structure KiroSession where
  conversation_id : String := ""
  history : List HistoryTurn := []

/-- `self.assistant["Response"].get("content", "")`.  In the store schema the
`Response` payload is an object with a string `content`; that is the modeled
domain. -/
def respContent : Json → String
  | .obj fields =>
    match jLookup "content" fields with
    | some (.str s) => s
    | _ => ""
  | _ => ""

/-- `HistoryTurn.get_assistant_text`: `if not self.assistant` covers both the
`None` and the empty-dict case; then `if "Response" in self.assistant`. -/
def HistoryTurn.get_assistant_text (t : HistoryTurn) : Option String :=
  match t.assistant with
  | none => none
  | some d =>
    if d.isEmpty then none
    else
      match jLookup "Response" d with
      | some v => some (respContent v)
      | none => none

/-- The loop body of `get_last_assistant_text`, over the reversed history:
`text = turn.get_assistant_text(); if text: return text` — a turn whose
extracted text is `None` or empty (falsy) is skipped. -/
def lastTextGo : List HistoryTurn → Option String
  | [] => none
  | t :: ts =>
    match t.get_assistant_text with
    | some txt => if txt = "" then lastTextGo ts else some txt
    | none => lastTextGo ts

def KiroSession.get_last_assistant_text (s : KiroSession) : Option String :=
  lastTextGo s.history.reverse

/-- `KiroSession.check_completion_promise`: `if not text: return False`, then
`re.search(rf"<promise>\s*{re.escape(promise)}\s*</promise>", text, re.IGNORECASE)`. -/
def KiroSession.check_completion_promise (s : KiroSession) (promise : String) : Bool :=
  match s.get_last_assistant_text with
  | none => false
  | some text => if text = "" then false else promiseSearch promise.data text.data

/-! ### Spec-side matching conditions (transcribed from the spec's words) -/

/-- Spec-side condition for the promise matcher, as the claim states it: the
text contains the literal sequence `<promise>`, zero or more whitespace
characters, the phrase (case-insensitively, as literal text), zero or more
whitespace characters, and the literal sequence `</promise>`, contiguously
and in that order. -/
def SpecPromiseCS (text phrase : List Char) : Prop :=
  ∃ pre ws1 ph ws2 post,
    text = pre ++ openTag ++ ws1 ++ ph ++ ws2 ++ closeTag ++ post ∧
    (∀ c ∈ ws1, isPyWs c) ∧ ciListEq ph phrase ∧ (∀ c ∈ ws2, isPyWs c)

/-- The same condition with the two marker tags also compared
case-insensitively (which is what `re.IGNORECASE` does to them). -/
def SpecPromiseCI (text phrase : List Char) : Prop :=
  ∃ pre tagO ws1 ph ws2 tagC post,
    text = pre ++ tagO ++ ws1 ++ ph ++ ws2 ++ tagC ++ post ∧
    ciListEq tagO openTag ∧ (∀ c ∈ ws1, isPyWs c) ∧
    ciListEq ph phrase ∧ (∀ c ∈ ws2, isPyWs c) ∧ ciListEq tagC closeTag

/-- Plain (case-sensitive) substring occurrence test, used to refute
`SpecPromiseCS` on concrete inputs. -/
def containsSeq (needle : List Char) : List Char → Bool
  | [] => needle.isPrefixOf ([] : List Char)
  | c :: cs => needle.isPrefixOf (c :: cs) || containsSeq needle cs

/-- Spec-side scan for the last assistant text, as claim C7 states it: walk
the turns from the most recent to the oldest and return the text of the
first turn whose agent-side payload is the `Response` variant, whatever that
text is. -/
def specLastGo : List HistoryTurn → Option String
  | [] => none
  | t :: ts =>
    match t.assistant with
    | some d =>
      match jLookup "Response" d with
      | some v => some (respContent v)
      | none => specLastGo ts
    | none => specLastGo ts

def specLastAssistantText (s : KiroSession) : Option String :=
  specLastGo s.history.reverse

/-- Amended spec-side scan: return the text of the first (most recent) turn
whose agent-side payload is the `Response` variant with non-empty text,
skipping `Response` turns whose text is empty. -/
def specLastGoNE : List HistoryTurn → Option String
  | [] => none
  | t :: ts =>
    match t.assistant with
    | some d =>
      match jLookup "Response" d with
      | some v => if respContent v = "" then specLastGoNE ts else some (respContent v)
      | none => specLastGoNE ts
    | none => specLastGoNE ts

def specLastAssistantTextNE (s : KiroSession) : Option String :=
  specLastGoNE s.history.reverse

/-! ### Store reader (core/session_reader.py)

`get_latest_session` connects to the SQLite store, runs a point query ordered
by `created_at DESC LIMIT 1`, and validates the returned JSON payload with
`KiroSession.model_validate_json` (pydantic v2).  The possible results of the
store access are modeled as a small sum type; the row payload is `none` when
the stored text is not valid JSON. -/

inductive PyErr where
  | validationError
  | fileNotFoundError
  deriving DecidableEq

/-- Outcome of the SQLite query as seen by `get_latest_session`. -/
inductive DbQuery where
  | noFile
  | sqlError
  | noRow
  | row (payload : Option Json)

def parseTurnField : Option Json → Option (Option (List (String × Json)))
  | none => some none
  | some .null => some none
  | some (.obj fs) => some (some fs)
  | some _ => none

/-- Pydantic validation of one `HistoryTurn` (`extra="ignore"`; `user` and
`assistant` are `dict[str, Any] | None` defaulting to `None`). -/
def parseTurn : Json → Option HistoryTurn
  | .obj fs => do
    let u ← parseTurnField (jLookup "user" fs)
    let a ← parseTurnField (jLookup "assistant" fs)
    pure ⟨u, a⟩
  | _ => none

def parseHistory : Option Json → Option (List HistoryTurn)
  | none => some []
  | some (.arr xs) => xs.mapM parseTurn
  | some _ => none

/-- Pydantic validation of a `KiroSession` (`extra="ignore"`,
`conversation_id : str = ""`, `history : list[HistoryTurn] = []`). -/
def parseKiroSession : Json → Option KiroSession
  | .obj fs => do
    let cid ←
      match jLookup "conversation_id" fs with
      | none => some ""
      | some (.str s) => some s
      | some _ => none
    let h ← parseHistory (jLookup "history" fs)
    pure ⟨cid, h⟩
  | _ => none

/-- `KiroSession.model_validate_json` (pydantic v2): both syntactically
invalid JSON and schema violations raise `pydantic_core.ValidationError`. -/
def model_validate_json : Option Json → Except PyErr KiroSession
  | none => .error .validationError
  | some j =>
    match parseKiroSession j with
    | some s => .ok s
    | none => .error .validationError

/-- `get_latest_session`: a missing store file, a caught `sqlite3.Error`, and
an empty query result all yield `None`; a row payload is validated with
`model_validate_json`, whose `ValidationError` is not among the caught
exception classes (`sqlite3.Error`, `json.JSONDecodeError`) and therefore
propagates to the caller. -/
def get_latest_session (q : DbQuery) : Except PyErr (Option KiroSession) :=
  match q with
  | .noFile => .ok none
  | .sqlError => .ok none
  | .noRow => .ok none
  | .row payload =>
    match model_validate_json payload with
    | .ok s => .ok (some s)
    | .error e => .error e

/-- The regex pattern matched at the start of the text (helper for relating
`promiseMatchAt` to the spec-side decomposition). -/
def AnchoredCI (phrase text : List Char) : Prop :=
  ∃ tagO ws1 ph ws2 tagC post,
    text = tagO ++ ws1 ++ ph ++ ws2 ++ tagC ++ post ∧
    ciListEq tagO openTag = true ∧ (∀ c ∈ ws1, isPyWs c = true) ∧
    ciListEq ph phrase = true ∧ (∀ c ∈ ws2, isPyWs c = true) ∧
    ciListEq tagC closeTag = true

/-- Concrete session whose last assistant text is
`<PROMISE>done</PROMISE>`: uppercase marker tags. -/
def sessC1 : KiroSession :=
  { conversation_id := "c1"
    history := [{ assistant := some [("Response",
        .obj [("message_id", .str "m"), ("content", .str "<PROMISE>done</PROMISE>")])] }] }

/-- Concrete session whose most recent turn is a `Response` with empty text
and whose older turn is a `Response` with text `hello`. -/
def sessC7 : KiroSession :=
  { conversation_id := "c7"
    history := [{ assistant := some [("Response",
        .obj [("message_id", .str "m1"), ("content", .str "hello")])] },
      { assistant := some [("Response",
        .obj [("message_id", .str "m2"), ("content", .str "")])] }] }

/-! ### Loop state persistence (models/state.py)

`LoopState.to_markdown` renders the non-prompt fields as a YAML block
mapping between `---` delimiters followed by the prompt;
`LoopState.from_markdown` is `content.split("---", 2)`, `yaml.safe_load` on
the middle part, prompt injection, and pydantic validation.  The library
layers (pyyaml, pydantic's datetime handling) are modeled on the fragment
this file format occupies: a flat block mapping of scalars. -/

/-- Single-quote character (YAML quoting). -/
def sq : Char := Char.ofNat 39

structure PyDatetime where
  year : Nat
  month : Nat
  day : Nat
  hour : Nat
  minute : Nat
  second : Nat
  microsecond : Nat
  tzOffset : Option Int
  deriving DecidableEq

def tzWithin : Option Int → Bool
  | none => true
  | some off => decide (off.natAbs ≤ 1439)

/-- Field ranges guaranteed by Python's `datetime` (`day` is bounded by 31
here rather than by the calendar-exact month length, which is all the proofs
need). -/
def PyDatetime.isValid (d : PyDatetime) : Prop :=
  1 ≤ d.year ∧ d.year ≤ 9999 ∧ 1 ≤ d.month ∧ d.month ≤ 12 ∧
  1 ≤ d.day ∧ d.day ≤ 31 ∧ d.hour ≤ 23 ∧ d.minute ≤ 59 ∧ d.second ≤ 59 ∧
  d.microsecond ≤ 999999 ∧ tzWithin d.tzOffset = true

def pad2 (n : Nat) : List Char := [Nat.digitChar (n / 10), Nat.digitChar (n % 10)]

def pad4 (n : Nat) : List Char := pad2 (n / 100) ++ pad2 (n % 100)

def pad6 (n : Nat) : List Char := pad2 (n / 10000) ++ pad2 (n / 100 % 100) ++ pad2 (n % 100)

/-- Fractional-seconds part: present only when the microseconds are
non-zero. -/
def microRender (us : Nat) : List Char :=
  if us = 0 then [] else '.' :: pad6 us

/-- UTC-offset suffix: nothing for a naive datetime, `Z` for offset zero,
`±HH:MM` otherwise. -/
def tzRender : Option Int → List Char
  | none => []
  | some off =>
    if off = 0 then ['Z']
    else (if off < 0 then ['-'] else ['+']) ++
      pad2 (off.natAbs / 60) ++ [':'] ++ pad2 (off.natAbs % 60)

/-- Pydantic v2 JSON-mode rendering of a datetime: RFC 3339 with
microseconds only when non-zero, `Z` for a zero UTC offset, `±HH:MM`
otherwise, and no suffix for a naive datetime. -/
def isoRender (d : PyDatetime) : List Char :=
  pad4 d.year ++ ['-'] ++ pad2 d.month ++ ['-'] ++ pad2 d.day ++ ['T'] ++
  pad2 d.hour ++ [':'] ++ pad2 d.minute ++ [':'] ++ pad2 d.second ++
  microRender d.microsecond ++ tzRender d.tzOffset

def read2 : List Char → Option (Nat × List Char)
  | a :: b :: rest =>
    if a.isDigit && b.isDigit then some ((a.toNat - 48) * 10 + (b.toNat - 48), rest)
    else none
  | _ => none

def read4 (l : List Char) : Option (Nat × List Char) := do
  let (a, r) ← read2 l
  let (b, r2) ← read2 r
  pure (a * 100 + b, r2)

def read6 (l : List Char) : Option (Nat × List Char) := do
  let (a, r) ← read2 l
  let (b, r2) ← read2 r
  let (c, r3) ← read2 r2
  pure (a * 10000 + b * 100 + c, r3)

def expectChar (c : Char) : List Char → Option (List Char)
  | x :: r => if x = c then some r else none
  | [] => none

def parseTz : List Char → Option (Option Int)
  | [] => some none
  | c :: rest =>
    if c = 'Z' ∧ rest = [] then some (some 0)
    else if c = '+' || c = '-' then do
      let (h, r) ← read2 rest
      let r2 ← expectChar ':' r
      let (m, r3) ← read2 r2
      if r3 = [] then
        some (some ((if c = '-' then -1 else 1) * ((h * 60 + m : Nat) : Int)))
      else none
    else none

def parseMicroTz : List Char → Option (Nat × Option Int)
  | [] => (parseTz []).map fun tz => (0, tz)
  | c :: rest =>
    if c = '.' then do
      let (u, r) ← read6 rest
      let tz ← parseTz r
      pure (u, tz)
    else (parseTz (c :: rest)).map fun tz => (0, tz)

/-- The characters a rendered timestamp is built from. -/
def isoCharOk (c : Char) : Bool :=
  c.isDigit || c = '-' || c = ':' || c = 'T' || c = 'Z' || c = '.' || c = '+'

/-- Date part `YYYY-MM-DD` of the timestamp. -/
def isoParseDate (l : List Char) : Option (Nat × Nat × Nat × List Char) := do
  let (y, r1) ← read4 l
  let r2 ← expectChar '-' r1
  let (mo, r3) ← read2 r2
  let r4 ← expectChar '-' r3
  let (dd, r5) ← read2 r4
  pure (y, mo, dd, r5)

/-- Time part `THH:MM:SS` of the timestamp. -/
def isoParseTime (l : List Char) : Option (Nat × Nat × Nat × List Char) := do
  let r6 ← expectChar 'T' l
  let (hh, r7) ← read2 r6
  let r8 ← expectChar ':' r7
  let (mi, r9) ← read2 r8
  let r10 ← expectChar ':' r9
  let (ss, r11) ← read2 r10
  pure (hh, mi, ss, r11)

/-- Pydantic v2 datetime parsing, on the fragment of shapes `isoRender`
produces (fixed-width fields, optional 6-digit fraction, optional
`Z`/`±HH:MM` suffix), with the range validation Python's `datetime`
performs. -/
def isoParse (l : List Char) : Option PyDatetime := do
  let (y, mo, dd, r5) ← isoParseDate l
  let (hh, mi, ss, r11) ← isoParseTime r5
  let (us, tz) ← parseMicroTz r11
  if 1 ≤ y ∧ y ≤ 9999 ∧ 1 ≤ mo ∧ mo ≤ 12 ∧ 1 ≤ dd ∧ dd ≤ 31 ∧
      hh ≤ 23 ∧ mi ≤ 59 ∧ ss ≤ 59 ∧ tzWithin tz = true then
    some ⟨y, mo, dd, hh, mi, ss, us, tz⟩
  else none

/-- `LoopState` (models/state.py): pydantic fields with their defaults; the
`ge` bounds make the integer fields naturals. -/
structure LoopState where
  active : Bool := true
  iteration : Nat := 1
  min_iterations : Nat := 1
  max_iterations : Nat := 0
  completion_promise : List Char := "COMPLETE".data
  started_at : PyDatetime
  prompt : List Char
  deriving DecidableEq

/-- The `ge` constraints pydantic enforces on construction. -/
def LoopState.isValid (s : LoopState) : Prop :=
  1 ≤ s.iteration ∧ 1 ≤ s.min_iterations

/-- Decimal rendering, with structural recursion on a fuel bound (the fuel
never runs out: see `natStr_eq`). -/
def natStrGo : Nat → Nat → List Char
  | 0, n => [Nat.digitChar n]
  | fuel + 1, n =>
    if n < 10 then [Nat.digitChar n]
    else natStrGo fuel (n / 10) ++ [Nat.digitChar (n % 10)]

/-- Decimal rendering of a natural number (Python `str` on the
`ge`-constrained integer fields). -/
def natStr (n : Nat) : List Char := natStrGo n n

def plainChar (c : Char) : Bool :=
  c.isAlpha || c.isDigit || c = ' ' || c = '-' || c = '_' || c = '.'

def yamlTrues : List (List Char) :=
  ["true", "True", "TRUE", "yes", "Yes", "YES", "on", "On", "ON"].map String.data

def yamlFalses : List (List Char) :=
  ["false", "False", "FALSE", "no", "No", "NO", "off", "Off", "OFF"].map String.data

def yamlNullsOrEmpty : List (List Char) :=
  ["null", "Null", "NULL", "~", ""].map String.data

def yamlWords : List (List Char) := yamlNullsOrEmpty ++ yamlTrues ++ yamlFalses

/-- Strings pyyaml emits as plain (unquoted) scalars: non-empty, over a
conservative character set, starting with a letter, not ending in a space,
and not resolving to a non-string type. -/
def plainSafe (s : List Char) : Bool :=
  match s with
  | [] => false
  | c :: _ =>
    c.isAlpha && s.all plainChar && !(s.getLast? == some ' ') && !(yamlWords.contains s)

def escSq : List Char → List Char
  | [] => []
  | c :: r => if c = sq then sq :: sq :: escSq r else c :: escSq r

/-- pyyaml scalar emission, modeled for the plain-safe fragment; everything
else is emitted single-quoted (strings with control characters, which pyyaml
would emit double-quoted or in block style, are outside the modeled
domain). -/
def yamlStrScalar (s : List Char) : List Char :=
  if plainSafe s then s else sq :: (escSq s ++ [sq])

/-- One `key: value` line of a YAML block mapping. -/
def headerLine (k v : List Char) : List Char := k ++ ':' :: ' ' :: v

/-- The YAML frontmatter `yaml.dump` produces: model field order
(`sort_keys=False`), block style, one `key: value` scalar per
newline-terminated line; the `started_at` ISO string is single-quoted
because it would otherwise resolve as a timestamp. -/
def yamlHeader (s : LoopState) : List Char :=
  headerLine "active".data (if s.active then "true".data else "false".data) ++ '\n' ::
  (headerLine "iteration".data (natStr s.iteration) ++ '\n' ::
  (headerLine "min_iterations".data (natStr s.min_iterations) ++ '\n' ::
  (headerLine "max_iterations".data (natStr s.max_iterations) ++ '\n' ::
  (headerLine "completion_promise".data (yamlStrScalar s.completion_promise) ++ '\n' ::
  (headerLine "started_at".data (sq :: (isoRender s.started_at ++ [sq])) ++ '\n' :: [])))))

/-- `LoopState.to_markdown`: `f"---\n{yaml_str}---\n\n{self.prompt}"`. -/
def LoopState.to_markdown (s : LoopState) : List Char :=
  "---\n".data ++ yamlHeader s ++ "---\n\n".data ++ s.prompt

def startsDash3 (l : List Char) : Bool := decide (l.take 3 = ['-', '-', '-'])

/-- First occurrence of the separator `---` (one step of Python
`str.split("---")`): the part before it and the rest after it. -/
def splitFirstDash3 : List Char → Option (List Char × List Char)
  | [] => none
  | c :: cs =>
    if startsDash3 (c :: cs) then some ([], (c :: cs).drop 3)
    else (splitFirstDash3 cs).map fun p => (c :: p.1, p.2)

/-- Python `content.split("---", 2)`. -/
def pySplitDash3 (s : List Char) : List (List Char) :=
  match splitFirstDash3 s with
  | none => [s]
  | some (p1, r1) =>
    match splitFirstDash3 r1 with
    | none => [p1, r1]
    | some (p2, r2) => [p1, p2, r2]

def dropLeadingWs : List Char → List Char
  | [] => []
  | c :: r => if isPyWs c then dropLeadingWs r else c :: r

/-- Python `str.strip()` (ASCII whitespace fragment). -/
def pyStrip (l : List Char) : List Char :=
  (dropLeadingWs (dropLeadingWs l).reverse).reverse

inductive YamlVal where
  | null
  | bool (b : Bool)
  | int (n : Int)
  | str (s : List Char)
  deriving DecidableEq

def isIntLit (l : List Char) : Bool :=
  match l with
  | [] => false
  | c :: r =>
    if c = '-' || c = '+' then !r.isEmpty && r.all Char.isDigit
    else (c :: r).all Char.isDigit

def digitsVal (l : List Char) : Nat :=
  l.foldl (fun acc c => acc * 10 + (c.toNat - 48)) 0

def intLitVal (l : List Char) : Int :=
  match l with
  | [] => 0
  | c :: r =>
    if c = '-' then -(digitsVal r : Int)
    else if c = '+' then (digitsVal r : Int)
    else (digitsVal (c :: r) : Int)

def unescSq : List Char → List Char
  | [] => []
  | c :: cs =>
    if c = sq then
      match cs with
      | [] => []
      | _ :: cs2 => sq :: unescSq cs2
    else c :: unescSq cs

def unquoteSq (l : List Char) : Option (List Char) :=
  match l with
  | [] => none
  | c :: r =>
    if c = sq ∧ r.getLast? = some sq then some (unescSq r.dropLast) else none

/-- pyyaml scalar resolution, on the fragment arising here: null words,
booleans, decimal integers, single-quoted strings and plain strings over
`plainChar`; anything else (floats, flow collections, block scalars,
timestamps, …) is outside the modeled fragment. -/
def resolveScalar (v : List Char) : Option YamlVal :=
  if isIntLit v then some (.int (intLitVal v))
  else if yamlNullsOrEmpty.contains v then some .null
  else if yamlTrues.contains v then some (.bool true)
  else if yamlFalses.contains v then some (.bool false)
  else if v.head? = some sq then (unquoteSq v).map .str
  else if !v.isEmpty && v.all plainChar then some (.str v)
  else none

def splitLines : List Char → List (List Char)
  | [] => [[]]
  | c :: r =>
    if c = '\n' then [] :: splitLines r
    else
      match splitLines r with
      | ln :: rest => (c :: ln) :: rest
      | [] => [[c]]

def keyChar (c : Char) : Bool := c.isAlpha || c = '_'

def splitColonSp : List Char → Option (List Char × List Char)
  | [] => none
  | c :: r =>
    if c = ':' ∧ r.head? = some ' ' then some ([], r.tail)
    else (splitColonSp r).map fun p => (c :: p.1, p.2)

def parseYamlLine (ln : List Char) : Option (List Char × YamlVal) := do
  let (k, v) ← splitColonSp ln
  if !k.isEmpty && k.all keyChar then
    let val ← resolveScalar v
    pure (k, val)
  else none

def parseYamlLinesGo : List (List Char) → Option (List (List Char × YamlVal))
  | [] => some []
  | ln :: rest =>
    if ln.all isPyWs then parseYamlLinesGo rest
    else do
      let kv ← parseYamlLine ln
      let t ← parseYamlLinesGo rest
      pure (kv :: t)

/-- `yaml.safe_load` on the frontmatter, restricted to a flat block mapping
of scalars (one `key: value` per line, blank lines skipped); `none` covers
yaml parse errors and non-mapping documents, each a failure of
`from_markdown`. -/
def parseYamlMapping (l : List Char) : Option (List (List Char × YamlVal)) :=
  parseYamlLinesGo (splitLines l)

/-- Last-binding-wins lookup (Python dict: a later assignment overrides). -/
def lookupLast (k : List Char) : List (List Char × YamlVal) → Option YamlVal
  | [] => none
  | (k', v) :: rest =>
    match lookupLast k rest with
    | some v' => some v'
    | none => if k' = k then some v else none

def getBoolField (fs : List (List Char × YamlVal)) (k : List Char) (dflt : Bool) :
    Option Bool :=
  match lookupLast k fs with
  | none => some dflt
  | some (.bool b) => some b
  | some _ => none

/-- A `ge`-constrained integer field; pydantic lax mode also accepts decimal
strings. -/
def getNatField (fs : List (List Char × YamlVal)) (k : List Char) (lo : Nat)
    (dflt : Nat) : Option Nat :=
  match lookupLast k fs with
  | none => some dflt
  | some (.int n) => if (lo : Int) ≤ n then some n.toNat else none
  | some (.str s) =>
    if isIntLit s then
      if (lo : Int) ≤ intLitVal s then some (intLitVal s).toNat else none
    else none
  | some _ => none

def getStrField (fs : List (List Char × YamlVal)) (k : List Char)
    (dflt : List Char) : Option (List Char) :=
  match lookupLast k fs with
  | none => some dflt
  | some (.str s) => some s
  | some _ => none

/-- `started_at`: absent runs the `default_factory`, producing the current
time `now`; a string value is parsed as ISO-8601 (numeric epoch values,
which pydantic would also coerce, are outside the modeled fragment). -/
def getDatetimeField (fs : List (List Char × YamlVal)) (k : List Char)
    (now : PyDatetime) : Option PyDatetime :=
  match lookupLast k fs with
  | none => some now
  | some (.str s) => isoParse s
  | some _ => none

/-- `LoopState.model_validate` on the frontmatter dict (prompt already
injected). -/
def stateValidate (fs : List (List Char × YamlVal)) (now : PyDatetime) :
    Option LoopState := do
  let active ← getBoolField fs "active".data true
  let iter ← getNatField fs "iteration".data 1 1
  let mn ← getNatField fs "min_iterations".data 1 1
  let mx ← getNatField fs "max_iterations".data 0 0
  let promise ← getStrField fs "completion_promise".data "COMPLETE".data
  let dt ← getDatetimeField fs "started_at".data now
  let prompt ←
    match lookupLast "prompt".data fs with
    | some (.str s) => some s
    | _ => none
  pure ⟨active, iter, mn, mx, promise, dt, prompt⟩

/-- `LoopState.from_markdown`; `now` is the time the `started_at`
`default_factory` would produce if the header omits the field.  Every
failure mode (missing or empty frontmatter, yaml errors, pydantic
validation errors) is `none`. -/
def LoopState.from_markdown (now : PyDatetime) (content : List Char) :
    Option LoopState :=
  match pySplitDash3 content with
  | [_, fmPart, body] => do
    let fm ← parseYamlMapping fmPart
    if fm.isEmpty then none
    else stateValidate (fm ++ [("prompt".data, .str (pyStrip body))]) now
  | _ => none

instance (s : LoopState) : Decidable s.isValid :=
  decidable_of_iff (1 ≤ s.iteration ∧ 1 ≤ s.min_iterations) Iff.rfl

instance (d : PyDatetime) : Decidable d.isValid :=
  decidable_of_iff (1 ≤ d.year ∧ d.year ≤ 9999 ∧ 1 ≤ d.month ∧ d.month ≤ 12 ∧
    1 ≤ d.day ∧ d.day ≤ 31 ∧ d.hour ≤ 23 ∧ d.minute ≤ 59 ∧ d.second ≤ 59 ∧
    d.microsecond ≤ 999999 ∧ tzWithin d.tzOffset = true) Iff.rfl

/-- Concrete timestamp used in witnesses. -/
def dtW : PyDatetime := ⟨2026, 1, 7, 12, 30, 45, 123456, some 0⟩

/-- Concrete valid state whose round trip is exercised in witnesses. -/
def sW : LoopState := ⟨true, 3, 2, 10, "TASK DONE".data, dtW, "  Build the API  ".data⟩

/-- State whose completion promise contains the `---` delimiter. -/
def sBadPromise : LoopState := ⟨true, 1, 1, 0, "a---b".data, dtW, "p".data⟩

/-! ### Loop orchestration (core/loop_runner.py)

`run_loop` drives the iteration loop: it writes the state file, runs one
chat, performs the completion check once the minimum iteration count is
reached, and stops on completion, on reaching `max_iterations`, or on a
`KeyboardInterrupt`.  The ambient effects are collected in an `Env`:
`sessionAt k` is the value `get_latest_session` produces after iteration
`k`'s chat (abstracting the conversation store), `nowAt k` the wall clock
when iteration `k`'s state is constructed, `intrAt k` whether the user
interrupts during iteration `k`'s (long-running) `run_chat` call, and
`agentFileExists` whether `.kiro/agents/ralph-wiggum.json` is present. -/

/-- `LoopConfig` (models/config.py) restricted to the fields `run_loop`
reads; the integer fields are `Nat` since pydantic's `ge` bounds hold on
construction. -/
structure LoopConfig where
  prompt : List Char
  min_iterations : Nat := 1
  max_iterations : Nat := 0
  completion_promise : List Char := "COMPLETE".data
  agent_name : Option (List Char) := none
  deriving DecidableEq

inductive Outcome where
  | completed (iter : Nat)
  | maxReached (iter : Nat)
  | interrupted (iter : Nat)
  deriving DecidableEq

structure Env where
  agentFileExists : Bool
  sessionAt : Nat → Option KiroSession
  nowAt : Nat → PyDatetime
  intrAt : Nat → Bool

/-- One terminated run: its outcome, the `sys.exit` code, the state file
contents after the exit path's cleanup (`none` = absent), the iterations
whose `run_chat` completed, and the iterations at which the completion
check (the `get_latest_session` call) was performed. -/
structure RunResult where
  outcome : Outcome
  exitCode : Nat
  file : Option (List Char)
  runs : List Nat
  checks : List Nat
  deriving DecidableEq

/-- `Path.unlink`: deleting an absent file raises `FileNotFoundError`
unless `missing_ok` is set. -/
def unlink (missing_ok : Bool) : Option (List Char) →
    Except PyErr (Option (List Char))
  | some _ => .ok none
  | none => if missing_ok then .ok none else .error .fileNotFoundError

/-- `cleanup()` = `STATE_FILE.unlink(missing_ok=True)`.  The error arm is
unreachable: with `missing_ok` the unlink never raises. -/
def cleanup (file : Option (List Char)) : Option (List Char) :=
  match unlink true file with
  | .ok f => f
  | .error _ => file

/-- The `LoopState` constructed at iteration `k` (active, started_at and
the unset fields take their defaults; `started_at`'s `default_factory`
yields the current time). -/
def stateAt (config : LoopConfig) (env : Env) (k : Nat) : LoopState :=
  ⟨true, k, config.min_iterations, config.max_iterations,
    config.completion_promise, env.nowAt k, config.prompt⟩

/-- `session and session.check_completion_promise(config.completion_promise)`
after iteration `k`: `None` is falsy, a parsed session is truthy. -/
def checkNow (config : LoopConfig) (env : Env) (k : Nat) : Bool :=
  match env.sessionAt k with
  | none => false
  | some s => s.check_completion_promise (String.mk config.completion_promise)

/-- The `while True` body, with `fuel` bounding how many more iterations
can be observed (`none` = still running).  Each pass increments the
iteration counter, writes the state file, runs the chat (where an interrupt
may arrive), checks completion only once `min_iterations` is reached, and
then checks the max bound; every exit path runs `cleanup` before
`sys.exit`. -/
def runLoopAux (config : LoopConfig) (env : Env) :
    Nat → Nat → Option (List Char) → List Nat → List Nat → Option RunResult
  | 0, _, _, _, _ => none
  | fuel + 1, iter, _, runs, checks =>
    let k := iter + 1
    let file1 : Option (List Char) := some (stateAt config env k).to_markdown
    if env.intrAt k then
      some ⟨.interrupted k, 1, cleanup file1, runs, checks⟩
    else
      let runs1 := runs ++ [k]
      let checks1 := if config.min_iterations ≤ k then checks ++ [k] else checks
      if config.min_iterations ≤ k ∧ checkNow config env k = true then
        some ⟨.completed k, 0, cleanup file1, runs1, checks1⟩
      else if 0 < config.max_iterations ∧ config.max_iterations ≤ k then
        some ⟨.maxReached k, 0, cleanup file1, runs1, checks1⟩
      else
        runLoopAux config env fuel k file1 runs1 checks1

/-- `KiroClient.__init__`: `agent_name or self._default_agent_name()` —
the empty string is falsy, and the default path raises
`FileNotFoundError` when the agent config file is absent. -/
def defaultAgentName (agentFileExists : Bool) : Except PyErr (List Char) :=
  if agentFileExists then .ok "ralph-wiggum".data else .error .fileNotFoundError

def kiroClientInit (agent_name : Option (List Char)) (agentFileExists : Bool) :
    Except PyErr (List Char) :=
  match agent_name with
  | some n => if n = [] then defaultAgentName agentFileExists else .ok n
  | none => defaultAgentName agentFileExists

/-- How a `run_loop` invocation ends: a `sys.exit` from one of the loop's
exit paths, an exception that escapes `run_loop` (the interpreter then
terminates with status 1), or still running when the observation fuel runs
out. -/
inductive LoopExit where
  | finished (r : RunResult)
  | uncaught (e : PyErr)
  | running
  deriving DecidableEq

def run_loop (config : LoopConfig) (env : Env) (fuel : Nat) : LoopExit :=
  match kiroClientInit config.agent_name env.agentFileExists with
  | .error e => .uncaught e
  | .ok _ =>
    match runLoopAux config env fuel 0 none [] [] with
    | none => .running
    | some r => .finished r

/-- The process exit status a terminated invocation produces. -/
def exitStatusOf : LoopExit → Option Nat
  | .finished r => some r.exitCode
  | .uncaught _ => some 1
  | .running => none

/-- Exit codes as the code assigns them: `sys.exit(1)` on interrupt,
`sys.exit(0)` on completion and on reaching the max bound. -/
def outcomeCode : Outcome → Nat
  | .interrupted _ => 1
  | _ => 0

/-- Concrete loop configuration used in witnesses: `max_iterations = 3`. -/
def cfgW : LoopConfig := ⟨"Build the API".data, 1, 3, "COMPLETE".data, none⟩

/-- Environment in which no session is ever found and no interrupt
arrives. -/
def envW : Env := ⟨true, fun _ => none, fun _ => dtW, fun _ => false⟩

/-- Environment in which the user interrupts during the first chat. -/
def envI : Env := ⟨true, fun _ => none, fun _ => dtW, fun _ => true⟩

/-- Session whose last assistant text satisfies the promise `DONE`. -/
def sessC4 : KiroSession :=
  { conversation_id := "c4"
    history := [{ assistant := some [("Response",
        .obj [("message_id", .str "m"), ("content", .str "<promise>DONE</promise>")])] }] }

/-- Unlimited loop with `min_iterations = 2` and promise `DONE`. -/
def cfgC4 : LoopConfig := ⟨"Fix the bug".data, 2, 0, "DONE".data, none⟩

/-- Environment in which every iteration's session already carries the
completion promise. -/
def envC4 : Env := ⟨true, fun _ => some sessC4, fun _ => dtW, fun _ => false⟩

end RalphWiggum

/-! ## Proofs -/

namespace RalphWiggum

lemma ciEq_comm (a b : Char) : ciEq a b = ciEq b a := by
  unfold ciEq
  by_cases h : a.toLower = b.toLower
  · rw [h]
  · rw [Bool.eq_iff_iff]
    simp only [beq_iff_eq]
    exact ⟨fun hh => absurd hh h, fun hh => absurd hh (Ne.symm h)⟩

lemma stripCI_eq_some_iff (p t r : List Char) :
    stripCI p t = some r ↔ ∃ a, t = a ++ r ∧ ciListEq a p = true := by
  induction p generalizing t with
  | nil =>
    simp only [stripCI, Option.some.injEq]
    constructor
    · rintro rfl; exact ⟨[], rfl, rfl⟩
    · rintro ⟨a, rfl, ha⟩
      cases a with
      | nil => rfl
      | cons x xs => simp [ciListEq] at ha
  | cons ph ps ih =>
    cases t with
    | nil =>
      simp only [stripCI]
      constructor
      · intro h; simp at h
      · rintro ⟨a, ha, hci⟩
        cases a with
        | nil => simp [ciListEq] at hci
        | cons x xs => simp at ha
    | cons c cs =>
      simp only [stripCI]
      by_cases hc : ciEq ph c = true
      · rw [if_pos hc, ih cs]
        constructor
        · rintro ⟨a, rfl, ha⟩
          exact ⟨c :: a, rfl, by simp [ciListEq, ciEq_comm c ph, hc, ha]⟩
        · rintro ⟨a, ha, hci⟩
          cases a with
          | nil => simp [ciListEq] at hci
          | cons x xs =>
            simp only [List.cons_append, List.cons.injEq] at ha
            obtain ⟨rfl, rfl⟩ := ha
            simp only [ciListEq, Bool.and_eq_true] at hci
            exact ⟨xs, rfl, hci.2⟩
      · rw [if_neg hc]
        constructor
        · intro h; simp at h
        · rintro ⟨a, ha, hci⟩
          cases a with
          | nil => simp [ciListEq] at hci
          | cons x xs =>
            simp only [List.cons_append, List.cons.injEq] at ha
            obtain ⟨rfl, rfl⟩ := ha
            simp only [ciListEq, Bool.and_eq_true] at hci
            exact absurd (by rw [ciEq_comm]; exact hci.1) hc

lemma wsCount_append_ge (w r : List Char) (hw : ∀ c ∈ w, isPyWs c = true) :
    w.length ≤ wsCount (w ++ r) := by
  induction w with
  | nil => simp
  | cons c cs ih =>
    have h2 := ih fun x hx => hw x (by simp [hx])
    have h1 : wsCount (c :: cs ++ r) = wsCount (cs ++ r) + 1 := by
      rw [List.cons_append]
      show (if isPyWs c then wsCount (cs ++ r) + 1 else 0) = _
      rw [if_pos (hw c (by simp))]
    rw [List.length_cons, h1]
    omega

lemma take_ws_of_le (l : List Char) (k : Nat) (hk : k ≤ wsCount l) :
    ∀ c ∈ l.take k, isPyWs c = true := by
  induction l generalizing k with
  | nil => simp
  | cons c cs ih =>
    cases k with
    | zero => simp
    | succ k' =>
      simp only [wsCount] at hk
      by_cases hc : isPyWs c = true
      · rw [if_pos hc] at hk
        intro x hx
        simp only [List.take_succ_cons, List.mem_cons] at hx
        rcases hx with rfl | hx
        · exact hc
        · exact ih k' (by omega) x hx
      · rw [if_neg hc] at hk; omega

lemma promiseMatchAt_iff (phrase text : List Char) :
    promiseMatchAt phrase text = true ↔ AnchoredCI phrase text := by
  constructor
  · intro h
    unfold promiseMatchAt at h
    cases h1 : stripCI openTag text with
    | none => rw [h1] at h; simp at h
    | some r1 =>
      rw [h1] at h
      obtain ⟨tagO, htext, htagO⟩ := (stripCI_eq_some_iff _ _ _).1 h1
      rw [List.any_eq_true] at h
      obtain ⟨k, hkmem, hbody⟩ := h
      rw [List.mem_range] at hkmem
      cases h2 : stripCI phrase (r1.drop k) with
      | none => rw [h2] at hbody; simp at hbody
      | some r2 =>
        rw [h2] at hbody
        obtain ⟨ph, hr1k, hph⟩ := (stripCI_eq_some_iff _ _ _).1 h2
        rw [List.any_eq_true] at hbody
        obtain ⟨j, hjmem, hinner⟩ := hbody
        rw [List.mem_range] at hjmem
        cases h3 : stripCI closeTag (r2.drop j) with
        | none => rw [h3] at hinner; simp at hinner
        | some post =>
          obtain ⟨tagC, hr2j, htagC⟩ := (stripCI_eq_some_iff _ _ _).1 h3
          obtain ⟨w2, hw2, hsplit2⟩ :
              ∃ w2, (∀ c ∈ w2, isPyWs c = true) ∧ r2 = w2 ++ (tagC ++ post) :=
            ⟨r2.take j, take_ws_of_le r2 j (by omega),
              by rw [← hr2j]; exact (List.take_append_drop j r2).symm⟩
          obtain ⟨w1, hw1, hsplit1⟩ :
              ∃ w1, (∀ c ∈ w1, isPyWs c = true) ∧ r1 = w1 ++ (ph ++ r2) :=
            ⟨r1.take k, take_ws_of_le r1 k (by omega),
              by rw [← hr1k]; exact (List.take_append_drop k r1).symm⟩
          refine ⟨tagO, w1, ph, w2, tagC, post, ?_, htagO, hw1, hph, hw2, htagC⟩
          rw [htext, hsplit1, hsplit2]
          simp [List.append_assoc]
  · rintro ⟨tagO, ws1, ph, ws2, tagC, post, rfl, htagO, hws1, hph, hws2, htagC⟩
    unfold promiseMatchAt
    have h1 : stripCI openTag (tagO ++ (ws1 ++ (ph ++ (ws2 ++ (tagC ++ post))))) =
        some (ws1 ++ (ph ++ (ws2 ++ (tagC ++ post)))) :=
      (stripCI_eq_some_iff _ _ _).2 ⟨tagO, rfl, htagO⟩
    rw [show tagO ++ ws1 ++ ph ++ ws2 ++ tagC ++ post =
        tagO ++ (ws1 ++ (ph ++ (ws2 ++ (tagC ++ post)))) by simp [List.append_assoc], h1]
    rw [List.any_eq_true]
    refine ⟨ws1.length, by
      rw [List.mem_range]
      exact Nat.lt_succ_of_le (wsCount_append_ge _ _ hws1), ?_⟩
    rw [List.drop_left]
    have h2 : stripCI phrase (ph ++ (ws2 ++ (tagC ++ post))) =
        some (ws2 ++ (tagC ++ post)) :=
      (stripCI_eq_some_iff _ _ _).2 ⟨ph, rfl, hph⟩
    rw [h2, List.any_eq_true]
    refine ⟨ws2.length, by
      rw [List.mem_range]
      exact Nat.lt_succ_of_le (wsCount_append_ge _ _ hws2), ?_⟩
    rw [List.drop_left]
    have h3 : stripCI closeTag (tagC ++ post) = some post :=
      (stripCI_eq_some_iff _ _ _).2 ⟨tagC, rfl, htagC⟩
    rw [h3]; rfl

lemma promiseSearch_iff (phrase t : List Char) :
    promiseSearch phrase t = true ↔
      ∃ pre rest, t = pre ++ rest ∧ promiseMatchAt phrase rest = true := by
  induction t with
  | nil =>
    simp only [promiseSearch]
    constructor
    · intro h; exact ⟨[], [], rfl, h⟩
    · rintro ⟨pre, rest, h, hm⟩
      obtain ⟨rfl, rfl⟩ := List.append_eq_nil.1 h.symm
      exact hm
  | cons c cs ih =>
    simp only [promiseSearch, Bool.or_eq_true, ih]
    constructor
    · rintro (h | ⟨pre, rest, rfl, hm⟩)
      · exact ⟨[], c :: cs, rfl, h⟩
      · exact ⟨c :: pre, rest, rfl, hm⟩
    · rintro ⟨pre, rest, hpre, hm⟩
      cases pre with
      | nil =>
        left
        simp only [List.nil_append] at hpre
        rw [hpre]; exact hm
      | cons x xs =>
        right
        simp only [List.cons_append, List.cons.injEq] at hpre
        exact ⟨xs, rest, hpre.2, hm⟩

lemma containsSeq_of_split (n a b t : List Char) (h : t = a ++ (n ++ b)) :
    containsSeq n t = true := by
  induction a generalizing t with
  | nil =>
    simp only [List.nil_append] at h
    subst h
    cases hn : n ++ b with
    | nil =>
      obtain ⟨rfl, rfl⟩ := List.append_eq_nil.1 hn
      simp [containsSeq, List.isPrefixOf]
    | cons c cs =>
      simp only [containsSeq, Bool.or_eq_true]
      left
      rw [← hn, List.isPrefixOf_iff_prefix]
      exact List.prefix_append n b
  | cons x xs ih =>
    subst h
    rw [List.cons_append, containsSeq, Bool.or_eq_true]
    right
    exact ih _ rfl

/-- C1 (corrected; counterexample): `check_completion_promise` matches the
marker tags case-insensitively as well (the `re.IGNORECASE` flag applies to
the whole pattern), so a text containing only uppercase `<PROMISE>` tags is
accepted even though it does not contain the literal sequence `<promise>`
required by the claim. -/
theorem c1_promise_matcher_counterexample :
    KiroSession.check_completion_promise sessC1 "done" = true ∧
    ¬ SpecPromiseCS "<PROMISE>done</PROMISE>".data "done".data := by
  constructor
  · decide
  · rintro ⟨pre, ws1, ph, ws2, post, heq, -⟩
    have hc : containsSeq openTag "<PROMISE>done</PROMISE>".data = true :=
      containsSeq_of_split openTag pre (ws1 ++ ph ++ ws2 ++ closeTag ++ post) _
        (by rw [heq]; simp [List.append_assoc])
    exact absurd hc (by decide)

/-- C1 (amended): the matcher returns true iff the text contains `<promise>`,
optional whitespace, the phrase, optional whitespace, `</promise>`,
contiguously and in that order, with the phrase treated as literal text and
the whole pattern — marker tags included — compared case-insensitively. -/
theorem c1_promise_matcher_amended (text phrase : List Char) :
    promiseSearch phrase text = true ↔ SpecPromiseCI text phrase := by
  rw [promiseSearch_iff]
  constructor
  · rintro ⟨pre, rest, rfl, hm⟩
    obtain ⟨tagO, ws1, ph, ws2, tagC, post, rfl, h1, h2, h3, h4, h5⟩ :=
      (promiseMatchAt_iff _ _).1 hm
    exact ⟨pre, tagO, ws1, ph, ws2, tagC, post, by simp [List.append_assoc], h1, h2, h3, h4, h5⟩
  · rintro ⟨pre, tagO, ws1, ph, ws2, tagC, post, rfl, h1, h2, h3, h4, h5⟩
    exact ⟨pre, tagO ++ ws1 ++ ph ++ ws2 ++ tagC ++ post, by simp [List.append_assoc],
      (promiseMatchAt_iff _ _).2 ⟨tagO, ws1, ph, ws2, tagC, post, rfl, h1, h2, h3, h4, h5⟩⟩

/-- C6 (code bug): a missing store file, a caught `sqlite3.Error` and an
empty query result all yield `None` without raising, but a row whose payload
cannot be validated as a session makes `get_latest_session` raise: pydantic's
`ValidationError` is not among the caught exception classes. -/
theorem c6_store_reader_code_bug :
    get_latest_session .noFile = .ok none ∧
    get_latest_session .sqlError = .ok none ∧
    get_latest_session .noRow = .ok none ∧
    get_latest_session (.row none) = .error .validationError ∧
    get_latest_session (.row (some (.obj [("history", .int 5)]))) =
      .error .validationError :=
  ⟨rfl, rfl, rfl, rfl, rfl⟩

/-- C7 (corrected; counterexample): the most recent turn of `sessC7` carries
the `Response` variant with empty text, so the claimed scan would return the
empty string, but the code skips it (empty text is falsy) and returns the
older turn's text. -/
theorem c7_last_text_counterexample :
    KiroSession.get_last_assistant_text sessC7 = some "hello" ∧
    specLastAssistantText sessC7 = some "" ∧
    KiroSession.get_last_assistant_text sessC7 ≠ specLastAssistantText sessC7 := by
  refine ⟨rfl, rfl, by decide⟩

/-- C7 (amended): the scan returns the text of the most recent turn whose
agent-side payload is the `Response` variant with non-empty text, skipping
`Response` turns whose text is empty; absent if there is none. -/
theorem c7_last_text_amended (s : KiroSession) :
    s.get_last_assistant_text = specLastAssistantTextNE s := by
  unfold KiroSession.get_last_assistant_text specLastAssistantTextNE
  generalize s.history.reverse = l
  induction l with
  | nil => rfl
  | cons t ts ih =>
    cases ha : t.assistant with
    | none => simpa [lastTextGo, specLastGoNE, HistoryTurn.get_assistant_text, ha] using ih
    | some d =>
      cases d with
      | nil =>
        simpa [lastTextGo, specLastGoNE, HistoryTurn.get_assistant_text, ha, jLookup] using ih
      | cons kv rest =>
        simp only [lastTextGo, specLastGoNE, HistoryTurn.get_assistant_text, ha,
          List.isEmpty_cons, if_neg]
        cases hr : jLookup "Response" (kv :: rest) with
        | none => simpa using ih
        | some v =>
          by_cases hc : respContent v = "" <;> simp [hc, ih]

/-! ### Splitting on the `---` delimiter -/

lemma startsDash3_cons_of_ne (c : Char) (cs : List Char) (hc : c ≠ '-') :
    startsDash3 (c :: cs) = false := by
  rw [startsDash3, decide_eq_false_iff_not]
  intro h
  simp only [List.take_succ_cons, List.cons.injEq] at h
  exact hc h.1

lemma splitFirstDash3_cons_none (c : Char) (cs : List Char)
    (h : splitFirstDash3 (c :: cs) = none) :
    startsDash3 (c :: cs) = false ∧ splitFirstDash3 cs = none := by
  by_cases hs : startsDash3 (c :: cs) = true
  · rw [splitFirstDash3, hs] at h; simp at h
  · have hs' : startsDash3 (c :: cs) = false := Bool.eq_false_iff.2 hs
    rw [splitFirstDash3, hs'] at h
    simp only [Bool.false_eq_true, if_false] at h
    exact ⟨hs', Option.map_eq_none'.1 h⟩

lemma splitFirstDash3_of_all_ne (l : List Char) (h : ∀ c ∈ l, c ≠ '-') :
    splitFirstDash3 l = none := by
  induction l with
  | nil => rfl
  | cons c cs ih =>
    rw [splitFirstDash3, startsDash3_cons_of_ne c cs (h c (by simp))]
    simp [ih fun x hx => h x (by simp [hx])]

lemma take1_head (y : List Char) (h : y.take 1 = ['-']) : y.head? = some '-' := by
  cases y with
  | nil => simp at h
  | cons a as =>
    simp only [List.take_succ_cons, List.take_zero, List.cons.injEq] at h
    simp [h.1]

lemma take2_head (y : List Char) (h : y.take 2 = ['-', '-']) : y.head? = some '-' := by
  cases y with
  | nil => simp at h
  | cons a as =>
    simp only [List.take_succ_cons, List.cons.injEq] at h
    simp [h.1]

lemma startsDash3_cons_append_false (c : Char) (x y : List Char)
    (h1 : startsDash3 (c :: x) = false)
    (h2 : (c :: x).getLast? ≠ some '-' ∨ y.head? ≠ some '-') :
    startsDash3 (c :: (x ++ y)) = false := by
  match x with
  | d :: e :: rest => exact h1
  | [d] =>
    rw [startsDash3, decide_eq_false_iff_not]
    intro hh
    simp only [List.singleton_append, List.take_succ_cons, List.cons.injEq] at hh
    rcases h2 with h2 | h2
    · exact h2 (by simp [hh.2.1])
    · exact h2 (take1_head y hh.2.2)
  | [] =>
    rw [startsDash3, decide_eq_false_iff_not]
    intro hh
    simp only [List.nil_append, List.take_succ_cons, List.cons.injEq] at hh
    rcases h2 with h2 | h2
    · exact h2 (by simp [hh.1])
    · exact h2 (take2_head y hh.2)

lemma splitFirstDash3_append_none (x y : List Char)
    (hx : splitFirstDash3 x = none) (hy : splitFirstDash3 y = none)
    (hb : x.getLast? ≠ some '-' ∨ y.head? ≠ some '-') :
    splitFirstDash3 (x ++ y) = none := by
  induction x with
  | nil => simpa using hy
  | cons c x' ih =>
    obtain ⟨h1, h2⟩ := splitFirstDash3_cons_none c x' hx
    have hstart : startsDash3 (c :: (x' ++ y)) = false :=
      startsDash3_cons_append_false c x' y h1 hb
    have hih : splitFirstDash3 (x' ++ y) = none := by
      apply ih h2
      rcases hb with hb | hb
      · cases x' with
        | nil => left; simp
        | cons a l =>
          left
          rwa [List.getLast?_cons_cons] at hb
      · right; exact hb
    rw [List.cons_append, splitFirstDash3, hstart]
    simp [hih]

lemma splitFirstDash3_consNe (c : Char) (l : List Char)
    (hl : splitFirstDash3 l = none) (h : c ≠ '-' ∨ l.head? ≠ some '-') :
    splitFirstDash3 (c :: l) = none := by
  have hs : startsDash3 (c :: l) = false := by
    rcases h with h | h
    · exact startsDash3_cons_of_ne c l h
    · rw [startsDash3, decide_eq_false_iff_not]
      intro hh
      simp only [List.take_succ_cons, List.cons.injEq] at hh
      exact h (take2_head l hh.2)
  rw [splitFirstDash3, hs]
  simp [hl]

lemma splitFirstDash3_boundary (a b : List Char)
    (ha : splitFirstDash3 a = none) (hlast : a.getLast? ≠ some '-') :
    splitFirstDash3 (a ++ '-' :: '-' :: '-' :: b) = some (a, b) := by
  induction a with
  | nil =>
    rw [List.nil_append, splitFirstDash3]
    rfl
  | cons c a' ih =>
    obtain ⟨h1, h2⟩ := splitFirstDash3_cons_none c a' ha
    have hstart : startsDash3 (c :: (a' ++ '-' :: '-' :: '-' :: b)) = false :=
      startsDash3_cons_append_false c a' _ h1 (Or.inl hlast)
    have hih : splitFirstDash3 (a' ++ '-' :: '-' :: '-' :: b) = some (a', b) := by
      apply ih h2
      cases a' with
      | nil => simp
      | cons u l => rwa [List.getLast?_cons_cons] at hlast
    rw [List.cons_append, splitFirstDash3, hstart]
    simp [hih]

/-! ### Digit and decimal-string lemmas -/

lemma digitChar_isDigit (d : Nat) (h : d < 10) : (Nat.digitChar d).isDigit = true := by
  have hall : ∀ x < 10, (Nat.digitChar x).isDigit = true := by decide
  exact hall d h

lemma digitChar_toNat (d : Nat) (h : d < 10) : (Nat.digitChar d).toNat = 48 + d := by
  have hall : ∀ x < 10, (Nat.digitChar x).toNat = 48 + x := by decide
  exact hall d h

lemma isDigit_ne_dash (c : Char) (h : c.isDigit = true) : c ≠ '-' := by
  intro he; rw [he] at h; exact absurd h (by decide)

lemma isDigit_ne_plus (c : Char) (h : c.isDigit = true) : c ≠ '+' := by
  intro he; rw [he] at h; exact absurd h (by decide)

lemma isDigit_ne_nl (c : Char) (h : c.isDigit = true) : c ≠ '\n' := by
  intro he; rw [he] at h; exact absurd h (by decide)

lemma isDigit_ne_sq (c : Char) (h : c.isDigit = true) : c ≠ sq := by
  intro he; rw [he] at h; exact absurd h (by decide)

lemma digitChar_ne_dash (d : Nat) (h : d < 10) : Nat.digitChar d ≠ '-' :=
  isDigit_ne_dash _ (digitChar_isDigit d h)

lemma natStrGo_fuel_irrel (n : Nat) : ∀ f1 f2, n ≤ f1 → n ≤ f2 →
    natStrGo f1 n = natStrGo f2 n := by
  induction n using Nat.strong_induction_on with
  | _ n ih =>
    intro f1 f2 h1 h2
    by_cases hn : n < 10
    · cases f1 <;> cases f2 <;> simp [natStrGo, hn]
    · cases f1 with
      | zero => omega
      | succ k1 =>
        cases f2 with
        | zero => omega
        | succ k2 =>
          rw [natStrGo, if_neg hn, natStrGo, if_neg hn,
            ih (n / 10) (Nat.div_lt_self (by omega) (by omega)) k1 k2 (by omega) (by omega)]

lemma natStr_eq (n : Nat) : natStr n =
    if n < 10 then [Nat.digitChar n]
    else natStr (n / 10) ++ [Nat.digitChar (n % 10)] := by
  by_cases hn : n < 10
  · rw [if_pos hn, natStr]
    cases n with
    | zero => rfl
    | succ k => rw [natStrGo, if_pos hn]
  · rw [if_neg hn, natStr, natStr]
    cases hh : n with
    | zero => omega
    | succ k =>
      rw [natStrGo, if_neg (hh ▸ hn)]
      congr 1
      exact natStrGo_fuel_irrel ((k + 1) / 10) k ((k + 1) / 10) (by omega) (by omega)

lemma natStr_ne_nil (n : Nat) : natStr n ≠ [] := by
  rw [natStr_eq]
  split <;> simp

lemma natStr_all_digit (n : Nat) : ∀ c ∈ natStr n, c.isDigit = true := by
  induction n using Nat.strong_induction_on with
  | _ n ih =>
    rw [natStr_eq]
    split
    · next h =>
      intro c hc
      simp only [List.mem_singleton] at hc
      subst hc
      exact digitChar_isDigit n h
    · next h =>
      intro c hc
      rw [List.mem_append] at hc
      rcases hc with hc | hc
      · exact ih (n / 10) (Nat.div_lt_self (by omega) (by omega)) c hc
      · simp only [List.mem_singleton] at hc
        subst hc
        exact digitChar_isDigit (n % 10) (Nat.mod_lt n (by omega))

lemma digitsVal_append_one (l : List Char) (c : Char) :
    digitsVal (l ++ [c]) = digitsVal l * 10 + (c.toNat - 48) := by
  rw [digitsVal, List.foldl_append]
  rfl

lemma digitsVal_natStr (n : Nat) : digitsVal (natStr n) = n := by
  induction n using Nat.strong_induction_on with
  | _ n ih =>
    rw [natStr_eq]
    split
    · next h =>
      show (0 * 10 + ((Nat.digitChar n).toNat - 48)) = n
      rw [digitChar_toNat n h]
      omega
    · next h =>
      rw [digitsVal_append_one, ih (n / 10) (Nat.div_lt_self (by omega) (by omega)),
        digitChar_toNat (n % 10) (Nat.mod_lt n (by omega))]
      omega

lemma isIntLit_natStr (n : Nat) : isIntLit (natStr n) = true := by
  have hd := natStr_all_digit n
  cases hn : natStr n with
  | nil => exact absurd hn (natStr_ne_nil n)
  | cons c r =>
    have hcd : c.isDigit = true := hd c (by rw [hn]; simp)
    have h1 : (c = '-' || c = '+') = false := by
      simp [isDigit_ne_dash c hcd, isDigit_ne_plus c hcd]
    rw [isIntLit, h1]
    simp only [Bool.false_eq_true, if_false]
    rw [List.all_eq_true]
    intro x hx
    exact hd x (by rw [hn]; exact hx)

lemma intLitVal_natStr (n : Nat) : intLitVal (natStr n) = (n : Int) := by
  cases hn : natStr n with
  | nil => exact absurd hn (natStr_ne_nil n)
  | cons c r =>
    have hcd : c.isDigit = true := (natStr_all_digit n) c (by rw [hn]; simp)
    rw [intLitVal, if_neg (isDigit_ne_dash c hcd), if_neg (isDigit_ne_plus c hcd),
      ← hn, digitsVal_natStr]

lemma resolveScalar_natStr (n : Nat) :
    resolveScalar (natStr n) = some (.int (n : Int)) := by
  rw [resolveScalar, if_pos (isIntLit_natStr n), intLitVal_natStr]

/-! ### Fixed-width numeric fields -/

lemma pad2_ne_nil (n : Nat) : pad2 n ≠ [] := by simp [pad2]

lemma pad4_ne_nil (n : Nat) : pad4 n ≠ [] := by simp [pad4, pad2]

lemma pad6_ne_nil (n : Nat) : pad6 n ≠ [] := by simp [pad6, pad2]

lemma pad2_head (n : Nat) : (pad2 n).head? = some (Nat.digitChar (n / 10)) := rfl

lemma pad2_last (n : Nat) : (pad2 n).getLast? = some (Nat.digitChar (n % 10)) := rfl

lemma pad4_last (n : Nat) :
    (pad4 n).getLast? = some (Nat.digitChar (n % 100 % 10)) := by
  rw [pad4, List.getLast?_append_of_ne_nil _ (pad2_ne_nil _)]
  exact pad2_last _

lemma pad6_last (n : Nat) :
    (pad6 n).getLast? = some (Nat.digitChar (n % 100 % 10)) := by
  rw [pad6, List.getLast?_append_of_ne_nil _ (pad2_ne_nil _)]
  exact pad2_last _

lemma pad2_all_digit (n : Nat) (h : n ≤ 99) : ∀ c ∈ pad2 n, c.isDigit = true := by
  intro c hc
  simp only [pad2, List.mem_cons, List.mem_singleton, List.not_mem_nil, or_false] at hc
  rcases hc with rfl | rfl
  · exact digitChar_isDigit _ (by omega)
  · exact digitChar_isDigit _ (by omega)

lemma pad4_all_digit (n : Nat) (h : n ≤ 9999) : ∀ c ∈ pad4 n, c.isDigit = true := by
  intro c hc
  rw [pad4, List.mem_append] at hc
  rcases hc with hc | hc
  · exact pad2_all_digit _ (by omega) c hc
  · exact pad2_all_digit _ (by omega) c hc

lemma pad6_all_digit (n : Nat) (h : n ≤ 999999) : ∀ c ∈ pad6 n, c.isDigit = true := by
  intro c hc
  rw [pad6, List.mem_append, List.mem_append] at hc
  rcases hc with (hc | hc) | hc
  · exact pad2_all_digit _ (by omega) c hc
  · exact pad2_all_digit _ (by omega) c hc
  · exact pad2_all_digit _ (by omega) c hc

lemma noDash3_pad2 (n : Nat) (h : n ≤ 99) : splitFirstDash3 (pad2 n) = none :=
  splitFirstDash3_of_all_ne _ fun c hc => isDigit_ne_dash c (pad2_all_digit n h c hc)

lemma noDash3_pad4 (n : Nat) (h : n ≤ 9999) : splitFirstDash3 (pad4 n) = none :=
  splitFirstDash3_of_all_ne _ fun c hc => isDigit_ne_dash c (pad4_all_digit n h c hc)

lemma noDash3_pad6 (n : Nat) (h : n ≤ 999999) : splitFirstDash3 (pad6 n) = none :=
  splitFirstDash3_of_all_ne _ fun c hc => isDigit_ne_dash c (pad6_all_digit n h c hc)

/-! ### The rendered timestamp contains no `---` -/

lemma pad2_last_ne_dash (n : Nat) : (pad2 n).getLast? ≠ some '-' := by
  rw [pad2_last]
  intro he
  exact digitChar_ne_dash _ (Nat.mod_lt _ (by omega)) (Option.some.inj he)

lemma pad4_last_ne_dash (n : Nat) : (pad4 n).getLast? ≠ some '-' := by
  rw [pad4_last]
  intro he
  exact digitChar_ne_dash _ (Nat.mod_lt _ (by omega)) (Option.some.inj he)

lemma pad6_last_ne_dash (n : Nat) : (pad6 n).getLast? ≠ some '-' := by
  rw [pad6_last]
  intro he
  exact digitChar_ne_dash _ (Nat.mod_lt _ (by omega)) (Option.some.inj he)

lemma pad2_head_ne_dash (n : Nat) (h : n ≤ 99) : (pad2 n).head? ≠ some '-' := by
  rw [pad2_head]
  intro he
  exact digitChar_ne_dash _ (by omega) (Option.some.inj he)

lemma noDash3_tzRender (tz : Option Int) (h : tzWithin tz = true) :
    splitFirstDash3 (tzRender tz) = none := by
  rcases tz with _ | off
  · rfl
  · rw [tzRender]
    by_cases h0 : off = 0
    · rw [if_pos h0]; decide
    · rw [if_neg h0]
      have hb : off.natAbs ≤ 1439 := of_decide_eq_true (by rwa [tzWithin] at h)
      have hsign : splitFirstDash3 ((if off < 0 then ['-'] else ['+']) ++
          pad2 (off.natAbs / 60)) = none := by
        by_cases hneg : off < 0
        · rw [if_pos hneg, List.singleton_append]
          exact splitFirstDash3_consNe '-' _ (noDash3_pad2 _ (by omega))
            (Or.inr (pad2_head_ne_dash _ (by omega)))
        · rw [if_neg hneg, List.singleton_append]
          exact splitFirstDash3_consNe '+' _ (noDash3_pad2 _ (by omega)) (Or.inl (by decide))
      have h2 : splitFirstDash3 ((if off < 0 then ['-'] else ['+']) ++
          pad2 (off.natAbs / 60) ++ [':']) = none := by
        apply splitFirstDash3_append_none _ _ hsign (by decide)
        left
        rw [List.getLast?_append_of_ne_nil _ (pad2_ne_nil _)]
        exact pad2_last_ne_dash _
      apply splitFirstDash3_append_none _ _ h2 (noDash3_pad2 _ (by omega))
      left
      rw [List.getLast?_concat]
      decide

lemma noDash3_microRender (us : Nat) (h : us ≤ 999999) :
    splitFirstDash3 (microRender us) = none := by
  rw [microRender]
  by_cases h0 : us = 0
  · rw [if_pos h0]; rfl
  · rw [if_neg h0]
    exact splitFirstDash3_consNe '.' _ (noDash3_pad6 us h) (Or.inl (by decide))

lemma noDash3_isoRender (d : PyDatetime) (hv : d.isValid) :
    splitFirstDash3 (isoRender d) = none := by
  obtain ⟨y, mo, dd, hh, mi, ss, us, tz⟩ := d
  obtain ⟨hv1, hv2, hv3, hv4, hv5, hv6, hv7, hv8, hv9, hv10, hv11⟩ := hv
  simp only at hv1 hv2 hv3 hv4 hv5 hv6 hv7 hv8 hv9 hv10 hv11
  rw [isoRender]
  dsimp only
  have hdash : splitFirstDash3 ['-'] = none := by decide
  have p2 := splitFirstDash3_append_none (pad4 y) ['-']
    (noDash3_pad4 y (by omega)) hdash (Or.inl (pad4_last_ne_dash y))
  have p3 := splitFirstDash3_append_none _ (pad2 mo) p2
    (noDash3_pad2 mo (by omega)) (Or.inr (pad2_head_ne_dash mo (by omega)))
  have p4 := splitFirstDash3_append_none _ ['-'] p3 hdash
    (Or.inl (by rw [List.getLast?_append_of_ne_nil _ (pad2_ne_nil mo)]
                exact pad2_last_ne_dash mo))
  have p5 := splitFirstDash3_append_none _ (pad2 dd) p4
    (noDash3_pad2 dd (by omega)) (Or.inr (pad2_head_ne_dash dd (by omega)))
  have p6 := splitFirstDash3_append_none _ ['T'] p5 (by decide) (Or.inr (by decide))
  have p7 := splitFirstDash3_append_none _ (pad2 hh) p6
    (noDash3_pad2 hh (by omega)) (Or.inr (pad2_head_ne_dash hh (by omega)))
  have p8 := splitFirstDash3_append_none _ [':'] p7 (by decide) (Or.inr (by decide))
  have p9 := splitFirstDash3_append_none _ (pad2 mi) p8
    (noDash3_pad2 mi (by omega)) (Or.inr (pad2_head_ne_dash mi (by omega)))
  have p10 := splitFirstDash3_append_none _ [':'] p9 (by decide) (Or.inr (by decide))
  have p11 := splitFirstDash3_append_none _ (pad2 ss) p10
    (noDash3_pad2 ss (by omega)) (Or.inr (pad2_head_ne_dash ss (by omega)))
  by_cases hus : us = 0
  · have hm : microRender us = [] := by rw [microRender, if_pos hus]
    rw [hm, List.append_nil]
    apply splitFirstDash3_append_none _ _ p11 (noDash3_tzRender tz hv11)
    left
    rw [List.getLast?_append_of_ne_nil _ (pad2_ne_nil ss)]
    exact pad2_last_ne_dash ss
  · have hm : microRender us = '.' :: pad6 us := by rw [microRender, if_neg hus]
    have p12 := splitFirstDash3_append_none _ (microRender us) p11
      (noDash3_microRender us (by omega))
      (Or.inr (by rw [hm]; simp))
    apply splitFirstDash3_append_none _ _ p12 (noDash3_tzRender tz hv11)
    left
    rw [hm, List.getLast?_append_of_ne_nil _ (by simp)]
    rw [show ('.' :: pad6 us) = ['.'] ++ pad6 us from rfl,
      List.getLast?_append_of_ne_nil _ (pad6_ne_nil us)]
    exact pad6_last_ne_dash us

/-! ### Character classes of the rendered pieces -/

lemma isoCharOk_of_digit (c : Char) (h : c.isDigit = true) : isoCharOk c = true := by
  simp [isoCharOk, h]

lemma microRender_chars (us : Nat) (h : us ≤ 999999) :
    ∀ c ∈ microRender us, isoCharOk c = true := by
  rw [microRender]
  by_cases h0 : us = 0
  · rw [if_pos h0]; simp
  · rw [if_neg h0]
    intro c hc
    rcases List.mem_cons.1 hc with rfl | hc
    · decide
    · exact isoCharOk_of_digit c (pad6_all_digit us h c hc)

lemma tzRender_chars (tz : Option Int) (h : tzWithin tz = true) :
    ∀ c ∈ tzRender tz, isoCharOk c = true := by
  rcases tz with _ | off
  · simp [tzRender]
  · rw [tzRender]
    by_cases h0 : off = 0
    · rw [if_pos h0]
      intro c hc
      simp only [List.mem_singleton] at hc
      subst hc; decide
    · rw [if_neg h0]
      have hb : off.natAbs ≤ 1439 := of_decide_eq_true (by rwa [tzWithin] at h)
      intro c hc
      by_cases hneg : off < 0 <;>
        [rw [if_pos hneg] at hc; rw [if_neg hneg] at hc] <;>
      · simp only [List.mem_append, List.mem_singleton, List.singleton_append,
          List.mem_cons, List.not_mem_nil, or_false] at hc
        rcases hc with ((rfl | hc) | rfl) | hc
        · decide
        · exact isoCharOk_of_digit c (pad2_all_digit _ (by omega) c hc)
        · decide
        · exact isoCharOk_of_digit c (pad2_all_digit _ (by omega) c hc)

lemma isoRender_chars (d : PyDatetime) (hv : d.isValid) :
    ∀ c ∈ isoRender d, isoCharOk c = true := by
  obtain ⟨y, mo, dd, hh, mi, ss, us, tz⟩ := d
  obtain ⟨hv1, hv2, hv3, hv4, hv5, hv6, hv7, hv8, hv9, hv10, hv11⟩ := hv
  simp only at hv1 hv2 hv3 hv4 hv5 hv6 hv7 hv8 hv9 hv10 hv11
  rw [isoRender]
  dsimp only
  intro c hc
  simp only [List.mem_append, List.mem_singleton] at hc
  rcases hc with ((((((((((((hc | rfl) | hc) | rfl) | hc) | rfl) | hc) | rfl) | hc) | rfl) | hc) | hc) | hc)
  · exact isoCharOk_of_digit c (pad4_all_digit y (by omega) c hc)
  · decide
  · exact isoCharOk_of_digit c (pad2_all_digit mo (by omega) c hc)
  · decide
  · exact isoCharOk_of_digit c (pad2_all_digit dd (by omega) c hc)
  · decide
  · exact isoCharOk_of_digit c (pad2_all_digit hh (by omega) c hc)
  · decide
  · exact isoCharOk_of_digit c (pad2_all_digit mi (by omega) c hc)
  · decide
  · exact isoCharOk_of_digit c (pad2_all_digit ss (by omega) c hc)
  · exact microRender_chars us (by omega) c hc
  · exact tzRender_chars tz hv11 c hc

lemma isoCharOk_ne_nl (c : Char) (h : isoCharOk c = true) : c ≠ '\n' := by
  intro he; rw [he] at h; exact absurd h (by decide)

lemma isoCharOk_ne_sq (c : Char) (h : isoCharOk c = true) : c ≠ sq := by
  intro he; rw [he] at h; exact absurd h (by decide)

lemma isAlpha_not_digit (c : Char) (h : c.isAlpha = true) : c.isDigit = false := by
  rw [Bool.eq_false_iff]
  intro hd
  simp only [Char.isAlpha, Char.isUpper, Char.isLower, Char.isDigit, Bool.or_eq_true,
    Bool.and_eq_true, decide_eq_true_eq, ge_iff_le] at h hd
  have h1 : 48 ≤ c.val.toNat := hd.1
  have h2 : c.val.toNat ≤ 57 := hd.2
  rcases h with ⟨a, b⟩ | ⟨a, b⟩
  · have a' : 65 ≤ c.val.toNat := a
    omega
  · have a' : 97 ≤ c.val.toNat := a
    omega

lemma isAlpha_ne_dash (c : Char) (h : c.isAlpha = true) : c ≠ '-' := by
  intro he; rw [he] at h; exact absurd h (by decide)

lemma isAlpha_ne_plus (c : Char) (h : c.isAlpha = true) : c ≠ '+' := by
  intro he; rw [he] at h; exact absurd h (by decide)

lemma isAlpha_ne_sq (c : Char) (h : c.isAlpha = true) : c ≠ sq := by
  intro he; rw [he] at h; exact absurd h (by decide)

lemma plainChar_ne_nl (c : Char) (h : plainChar c = true) : c ≠ '\n' := by
  intro he; rw [he] at h; exact absurd h (by decide)

lemma keyChar_ne_colon (c : Char) (h : keyChar c = true) : c ≠ ':' := by
  intro he; rw [he] at h; exact absurd h (by decide)

lemma keyChar_ne_nl (c : Char) (h : keyChar c = true) : c ≠ '\n' := by
  intro he; rw [he] at h; exact absurd h (by decide)

lemma keyChar_not_ws (c : Char) (h : keyChar c = true) : isPyWs c = false := by
  rw [Bool.eq_false_iff]
  intro hw
  rw [isPyWs] at hw
  simp only [Bool.or_eq_true, decide_eq_true_eq] at hw
  rcases hw with ((((h' | h') | h') | h') | h') | h' <;>
    (rw [h'] at h; exact absurd h (by decide))

/-! ### Membership in the YAML word lists -/

lemma contains_false_of_not_mem (ws : List (List Char)) (x : List Char)
    (h : x ∉ ws) : ws.contains x = false := by
  rw [Bool.eq_false_iff]
  intro hx
  exact h (List.elem_iff.1 hx)

lemma not_mem_of_contains_false (ws : List (List Char)) (x : List Char)
    (h : ws.contains x = false) : x ∉ ws := by
  intro hx
  rw [Bool.eq_false_iff] at h
  exact h (List.elem_iff.2 hx)

lemma quoted_not_mem_words (t : List Char) : (sq :: t) ∉ yamlWords := by
  intro hmem
  simp only [yamlWords, yamlNullsOrEmpty, yamlTrues, yamlFalses, List.map_cons,
    List.map_nil, List.mem_append, List.mem_cons, List.not_mem_nil, or_false] at hmem
  rcases hmem with ((h|h|h|h|h) | (h|h|h|h|h|h|h|h|h)) | (h|h|h|h|h|h|h|h|h) <;>
  · have hh := congrArg List.head? h
    simp only [List.head?_cons, List.head?_nil] at hh
    exact absurd hh (by decide)

lemma digits_not_mem_words (t : List Char) (ht : t ≠ [])
    (hd : ∀ c ∈ t, c.isDigit = true) : t ∉ yamlWords := by
  intro hmem
  cases t with
  | nil => exact ht rfl
  | cons c r =>
    have hcd : c.isDigit = true := hd c (by simp)
    simp only [yamlWords, yamlNullsOrEmpty, yamlTrues, yamlFalses, List.map_cons,
      List.map_nil, List.mem_append, List.mem_cons, List.not_mem_nil, or_false] at hmem
    rcases hmem with ((h|h|h|h|h) | (h|h|h|h|h|h|h|h|h)) | (h|h|h|h|h|h|h|h|h) <;>
    · have hh := congrArg List.head? h
      simp only [List.head?_cons, List.head?_nil] at hh
      first
      | (rw [Option.some.inj hh] at hcd; exact absurd hcd (by decide))
      | simp at hh

/-! ### Scalar resolution on the emitted value forms -/

lemma plainSafe_unpack (c : Char) (r : List Char) (h : plainSafe (c :: r) = true) :
    c.isAlpha = true ∧ (∀ x ∈ c :: r, plainChar x = true) ∧
      yamlWords.contains (c :: r) = false := by
  rw [plainSafe] at h
  simp only [Bool.and_eq_true, Bool.not_eq_true', List.all_eq_true] at h
  exact ⟨h.1.1.1, h.1.1.2, h.2⟩

lemma mem_words_left (x : List Char) (hm : x ∈ yamlNullsOrEmpty) : x ∈ yamlWords := by
  rw [yamlWords]
  exact List.mem_append.2 (Or.inl (List.mem_append.2 (Or.inl hm)))

lemma mem_words_mid (x : List Char) (hm : x ∈ yamlTrues) : x ∈ yamlWords := by
  rw [yamlWords]
  exact List.mem_append.2 (Or.inl (List.mem_append.2 (Or.inr hm)))

lemma mem_words_right (x : List Char) (hm : x ∈ yamlFalses) : x ∈ yamlWords := by
  rw [yamlWords]
  exact List.mem_append.2 (Or.inr hm)

lemma resolveScalar_plainSafe (v : List Char) (h : plainSafe v = true) :
    resolveScalar v = some (.str v) := by
  cases v with
  | nil => rw [plainSafe] at h; exact absurd h (by decide)
  | cons c r =>
    obtain ⟨halpha, hall, hwords⟩ := plainSafe_unpack c r h
    have hint : isIntLit (c :: r) = false := by
      rw [isIntLit]
      have h1 : (c = '-' || c = '+') = false := by
        simp [isAlpha_ne_dash c halpha, isAlpha_ne_plus c halpha]
      rw [h1]
      simp only [Bool.false_eq_true, if_false]
      rw [List.all_cons, isAlpha_not_digit c halpha]
      rfl
    have hnm := not_mem_of_contains_false _ _ hwords
    have hnulls : yamlNullsOrEmpty.contains (c :: r) = false :=
      contains_false_of_not_mem _ _ fun hm => hnm (mem_words_left _ hm)
    have htrues : yamlTrues.contains (c :: r) = false :=
      contains_false_of_not_mem _ _ fun hm => hnm (mem_words_mid _ hm)
    have hfalses : yamlFalses.contains (c :: r) = false :=
      contains_false_of_not_mem _ _ fun hm => hnm (mem_words_right _ hm)
    have hsq : ¬((c :: r).head? = some sq) := by
      simp only [List.head?_cons]
      intro he
      exact isAlpha_ne_sq c halpha (Option.some.inj he)
    rw [resolveScalar, hint, hnulls, htrues, hfalses]
    simp only [Bool.false_eq_true, if_false]
    rw [if_neg hsq]
    have hplain : (!(c :: r).isEmpty && (c :: r).all plainChar) = true := by
      simp only [List.isEmpty_cons, Bool.not_false, Bool.true_and, List.all_eq_true]
      exact hall
    rw [hplain]
    rfl

lemma unescSq_id (l : List Char) (h : ∀ c ∈ l, c ≠ sq) : unescSq l = l := by
  induction l with
  | nil => rfl
  | cons c r ih =>
    conv_lhs => rw [unescSq.eq_def]
    simp only [if_neg (h c (by simp))]
    rw [ih fun x hx => h x (by simp [hx])]

lemma resolveScalar_quoted (l : List Char) (h : ∀ c ∈ l, c ≠ sq) :
    resolveScalar (sq :: (l ++ [sq])) = some (.str l) := by
  have hint : isIntLit (sq :: (l ++ [sq])) = false := by
    rw [isIntLit]
    have h1 : (sq = '-' || sq = '+') = false := by decide
    rw [h1]
    simp only [Bool.false_eq_true, if_false]
    rw [List.all_cons, show sq.isDigit = false from by decide]
    rfl
  have hwords := quoted_not_mem_words (l ++ [sq])
  have hnulls : yamlNullsOrEmpty.contains (sq :: (l ++ [sq])) = false :=
    contains_false_of_not_mem _ _ fun hm => hwords (mem_words_left _ hm)
  have htrues : yamlTrues.contains (sq :: (l ++ [sq])) = false :=
    contains_false_of_not_mem _ _ fun hm => hwords (mem_words_mid _ hm)
  have hfalses : yamlFalses.contains (sq :: (l ++ [sq])) = false :=
    contains_false_of_not_mem _ _ fun hm => hwords (mem_words_right _ hm)
  have hueq : unquoteSq (sq :: (l ++ [sq])) = some l := by
    rw [unquoteSq, if_pos ⟨rfl, by rw [List.getLast?_concat]⟩, List.dropLast_concat]
    exact congrArg some (unescSq_id l h)
  rw [resolveScalar, hint, hnulls, htrues, hfalses]
  simp only [Bool.false_eq_true, if_false]
  rw [if_pos (show (sq :: (l ++ [sq])).head? = some sq from rfl), hueq]
  rfl

lemma resolveScalar_true : resolveScalar "true".data = some (.bool true) := by decide

lemma resolveScalar_false : resolveScalar "false".data = some (.bool false) := by decide

/-! ### Line splitting and the flat-mapping parser -/

lemma splitLines_cons_nl (r : List Char) :
    splitLines ('\n' :: r) = [] :: splitLines r := by
  rw [splitLines]
  simp

lemma splitLines_append (a b : List Char) (ha : ∀ c ∈ a, c ≠ '\n') :
    splitLines (a ++ '\n' :: b) = a :: splitLines b := by
  induction a with
  | nil => rw [List.nil_append, splitLines_cons_nl]
  | cons c a' ih =>
    have hc : c ≠ '\n' := ha c (by simp)
    rw [List.cons_append, splitLines, if_neg hc, ih fun x hx => ha x (by simp [hx])]

lemma parseYamlMapping_nil : parseYamlMapping [] = some [] := rfl

lemma parseYamlMapping_cons_nl (l : List Char) :
    parseYamlMapping ('\n' :: l) = parseYamlMapping l := by
  rw [parseYamlMapping, splitLines_cons_nl, parseYamlLinesGo]
  simp [parseYamlMapping]

lemma splitColonSp_boundary (k v : List Char) (hk : ∀ c ∈ k, c ≠ ':') :
    splitColonSp (k ++ ':' :: ' ' :: v) = some (k, v) := by
  induction k with
  | nil =>
    rw [List.nil_append, splitColonSp, if_pos ⟨rfl, rfl⟩]
    rfl
  | cons c k' ih =>
    rw [List.cons_append, splitColonSp, if_neg, ih fun x hx => hk x (by simp [hx])]
    · rfl
    · rintro ⟨rfl, -⟩
      exact hk ':' (by simp) rfl

lemma headerLine_no_nl (k v : List Char) (hk : ∀ c ∈ k, keyChar c = true)
    (hv : ∀ c ∈ v, c ≠ '\n') : ∀ c ∈ headerLine k v, c ≠ '\n' := by
  intro c hc
  rw [headerLine] at hc
  rcases List.mem_append.1 hc with hc | hc
  · exact keyChar_ne_nl c (hk c hc)
  · rcases List.mem_cons.1 hc with rfl | hc
    · decide
    · rcases List.mem_cons.1 hc with rfl | hc
      · decide
      · exact hv c hc

lemma headerLine_not_blank (k v : List Char) (hk0 : k ≠ [])
    (hk : ∀ c ∈ k, keyChar c = true) : (headerLine k v).all isPyWs = false := by
  cases k with
  | nil => exact absurd rfl hk0
  | cons c k' =>
    rw [headerLine, List.cons_append, List.all_cons, keyChar_not_ws c (hk c (by simp))]
    rfl

lemma parseYamlLine_build (k v : List Char) (val : YamlVal) (hk0 : k ≠ [])
    (hk : ∀ c ∈ k, keyChar c = true) (hval : resolveScalar v = some val) :
    parseYamlLine (headerLine k v) = some (k, val) := by
  rw [headerLine, parseYamlLine,
    splitColonSp_boundary k v fun c hc => keyChar_ne_colon c (hk c hc)]
  simp only [Option.bind_eq_bind, Option.some_bind, List.all_eq_true]
  rw [if_pos]
  · rw [hval]; rfl
  · have hke : k.isEmpty = false := by
      cases k with
      | nil => exact absurd rfl hk0
      | cons a t => rfl
    rw [hke]
    simp only [Bool.not_false, Bool.true_and, List.all_eq_true]
    exact hk

lemma parseYamlMapping_build (k v rest : List Char) (val : YamlVal)
    (m : List (List Char × YamlVal)) (hk0 : k ≠ [])
    (hk : ∀ c ∈ k, keyChar c = true) (hvnl : ∀ c ∈ v, c ≠ '\n')
    (hval : resolveScalar v = some val) (hrest : parseYamlMapping rest = some m) :
    parseYamlMapping (headerLine k v ++ '\n' :: rest) = some ((k, val) :: m) := by
  rw [parseYamlMapping, splitLines_append _ _ (headerLine_no_nl k v hk hvnl),
    parseYamlLinesGo, headerLine_not_blank k v hk0 hk]
  simp only [Bool.false_eq_true, if_false]
  rw [parseYamlLine_build k v val hk0 hk hval,
    show parseYamlLinesGo (splitLines rest) = some m from hrest]
  rfl

lemma plainSafe_all (v : List Char) (h : plainSafe v = true) :
    ∀ c ∈ v, plainChar c = true := by
  cases v with
  | nil => simp
  | cons c r => exact (plainSafe_unpack c r h).2.1

/-- Parsing the frontmatter of `to_markdown` recovers the six fields. -/
lemma parseHeader (s : LoopState) (hplain : plainSafe s.completion_promise = true)
    (hdt : s.started_at.isValid) :
    parseYamlMapping ('\n' :: yamlHeader s) =
      some [("active".data, .bool s.active),
            ("iteration".data, .int (s.iteration : Int)),
            ("min_iterations".data, .int (s.min_iterations : Int)),
            ("max_iterations".data, .int (s.max_iterations : Int)),
            ("completion_promise".data, .str s.completion_promise),
            ("started_at".data, .str (isoRender s.started_at))] := by
  rw [parseYamlMapping_cons_nl, yamlHeader]
  have hq1 : ∀ c ∈ sq :: (isoRender s.started_at ++ [sq]), c ≠ '\n' := by
    intro c hc
    rcases List.mem_cons.1 hc with rfl | hc
    · decide
    · rcases List.mem_append.1 hc with hc | hc
      · exact isoCharOk_ne_nl c (isoRender_chars _ hdt c hc)
      · rcases List.mem_singleton.1 hc with rfl
        decide
  have hline1 : resolveScalar (if s.active then "true".data else "false".data) =
      some (.bool s.active) := by
    cases s.active
    · rw [if_neg (by simp)]; exact resolveScalar_false
    · rw [if_pos rfl]; exact resolveScalar_true
  have hnl1 : ∀ c ∈ (if s.active then "true".data else "false".data), c ≠ '\n' := by
    cases s.active
    · rw [if_neg (by simp)]; decide
    · rw [if_pos rfl]; decide
  refine parseYamlMapping_build _ _ _ _ _ (by decide) (by decide) hnl1 hline1 ?_
  refine parseYamlMapping_build _ _ _ _ _ (by decide) (by decide)
    (fun c hc => isDigit_ne_nl c (natStr_all_digit _ c hc)) (resolveScalar_natStr _) ?_
  refine parseYamlMapping_build _ _ _ _ _ (by decide) (by decide)
    (fun c hc => isDigit_ne_nl c (natStr_all_digit _ c hc)) (resolveScalar_natStr _) ?_
  refine parseYamlMapping_build _ _ _ _ _ (by decide) (by decide)
    (fun c hc => isDigit_ne_nl c (natStr_all_digit _ c hc)) (resolveScalar_natStr _) ?_
  refine parseYamlMapping_build _ _ _ _ _ (by decide) (by decide)
    (fun c hc => plainChar_ne_nl c (plainSafe_all _ hplain c
      (by rwa [yamlStrScalar, if_pos hplain] at hc)))
    (by rw [yamlStrScalar, if_pos hplain]; exact resolveScalar_plainSafe _ hplain) ?_
  refine parseYamlMapping_build _ _ _ _ _ (by decide) (by decide) hq1
    (resolveScalar_quoted _ fun c hc => isoCharOk_ne_sq c (isoRender_chars _ hdt c hc)) ?_
  exact parseYamlMapping_nil

/-! ### Parsing the rendered timestamp -/

lemma read2_pad2 (n : Nat) (h : n ≤ 99) (rest : List Char) :
    read2 (pad2 n ++ rest) = some (n, rest) := by
  rw [pad2, List.cons_append, List.cons_append, List.nil_append, read2,
    digitChar_isDigit _ (by omega : n / 10 < 10),
    digitChar_isDigit _ (by omega : n % 10 < 10)]
  simp only [Bool.and_self, if_true]
  rw [digitChar_toNat _ (by omega : n / 10 < 10), digitChar_toNat _ (by omega : n % 10 < 10)]
  have he : (48 + n / 10 - 48) * 10 + (48 + n % 10 - 48) = n := by omega
  rw [he]

lemma read4_pad4 (n : Nat) (h : n ≤ 9999) (rest : List Char) :
    read4 (pad4 n ++ rest) = some (n, rest) := by
  rw [pad4, List.append_assoc, read4, read2_pad2 _ (by omega)]
  simp only [Option.bind_eq_bind, Option.some_bind]
  rw [read2_pad2 _ (by omega)]
  simp only [Option.some_bind]
  have he : n / 100 * 100 + n % 100 = n := by omega
  rw [he]
  rfl

lemma read6_pad6 (n : Nat) (h : n ≤ 999999) (rest : List Char) :
    read6 (pad6 n ++ rest) = some (n, rest) := by
  rw [pad6, List.append_assoc, List.append_assoc, read6, read2_pad2 _ (by omega)]
  simp only [Option.bind_eq_bind, Option.some_bind]
  rw [read2_pad2 _ (by omega)]
  simp only [Option.some_bind]
  rw [read2_pad2 _ (by omega)]
  simp only [Option.some_bind]
  have he : n / 10000 * 10000 + n / 100 % 100 * 100 + n % 100 = n := by omega
  rw [he]
  rfl

lemma parseTz_tzRender (tz : Option Int) (h : tzWithin tz = true) :
    parseTz (tzRender tz) = some tz := by
  rcases tz with _ | off
  · rfl
  · rw [tzRender]
    by_cases h0 : off = 0
    · subst h0
      rw [if_pos rfl]
      decide
    · rw [if_neg h0]
      have hb : off.natAbs ≤ 1439 := of_decide_eq_true (by rwa [tzWithin] at h)
      by_cases hneg : off < 0
      · rw [if_pos hneg]
        simp only [List.append_assoc, List.singleton_append, List.cons_append, List.nil_append]
        rw [parseTz, if_neg (by rintro ⟨h1, -⟩; exact absurd h1 (by decide))]
        rw [if_pos (by decide : ('-' = '+' || '-' = '-') = true)]
        rw [read2_pad2 _ (by omega)]
        simp only [Option.bind_eq_bind, Option.some_bind]
        rw [expectChar, if_pos rfl]
        simp only [Option.some_bind]
        rw [show pad2 (off.natAbs % 60) = pad2 (off.natAbs % 60) ++ [] from
          (List.append_nil _).symm, read2_pad2 _ (by omega)]
        simp only [Option.some_bind, if_pos rfl, if_true]
        have he : (-1 : Int) * ((off.natAbs / 60 * 60 + off.natAbs % 60 : Nat) : Int) =
            off := by
          have h60 : off.natAbs / 60 * 60 + off.natAbs % 60 = off.natAbs := by omega
          rw [h60]
          omega
        rw [he]
      · rw [if_neg hneg]
        simp only [List.append_assoc, List.singleton_append, List.cons_append, List.nil_append]
        rw [parseTz, if_neg (by rintro ⟨h1, -⟩; exact absurd h1 (by decide))]
        rw [if_pos (by decide : ('+' = '+' || '+' = '-') = true)]
        rw [read2_pad2 _ (by omega)]
        simp only [Option.bind_eq_bind, Option.some_bind]
        rw [expectChar, if_pos rfl]
        simp only [Option.some_bind]
        rw [show pad2 (off.natAbs % 60) = pad2 (off.natAbs % 60) ++ [] from
          (List.append_nil _).symm, read2_pad2 _ (by omega)]
        simp only [Option.some_bind, if_pos rfl, if_true]
        rw [if_neg (by decide : ¬('+' : Char) = '-')]
        have he : (1 : Int) * ((off.natAbs / 60 * 60 + off.natAbs % 60 : Nat) : Int) =
            off := by
          have h60 : off.natAbs / 60 * 60 + off.natAbs % 60 = off.natAbs := by omega
          rw [h60]
          omega
        rw [he]

lemma parseMicroTz_render (us : Nat) (tz : Option Int) (hus : us ≤ 999999)
    (htz : tzWithin tz = true) :
    parseMicroTz (microRender us ++ tzRender tz) = some (us, tz) := by
  by_cases h0 : us = 0
  · subst h0
    rw [microRender, if_pos rfl, List.nil_append]
    have hshape : parseMicroTz (tzRender tz) =
        (parseTz (tzRender tz)).map fun t => (0, t) := by
      cases htr : tzRender tz with
      | nil => rfl
      | cons c rest =>
        have hc : c ≠ '.' := by
          rcases tz with _ | off
          · simp [tzRender] at htr
          · rw [tzRender] at htr
            by_cases hz : off = 0
            · rw [if_pos hz] at htr
              rw [List.cons.injEq] at htr
              rw [← htr.1]
              decide
            · rw [if_neg hz] at htr
              by_cases hneg : off < 0 <;>
                [rw [if_pos hneg] at htr; rw [if_neg hneg] at htr] <;>
              · simp only [List.append_assoc, List.singleton_append,
                  List.cons_append, List.cons.injEq] at htr
                rw [← htr.1]
                decide
        rw [parseMicroTz, if_neg hc]
    rw [hshape, parseTz_tzRender tz htz]
    rfl
  · rw [microRender, if_neg h0, List.cons_append, parseMicroTz, if_pos rfl]
    rw [read6_pad6 us hus]
    simp only [Option.bind_eq_bind, Option.some_bind]
    rw [parseTz_tzRender tz htz]
    rfl

lemma isoParseDate_render (y mo dd : Nat) (rest : List Char) (hy : y ≤ 9999)
    (hmo : mo ≤ 99) (hdd : dd ≤ 99) :
    isoParseDate (pad4 y ++ '-' :: (pad2 mo ++ '-' :: (pad2 dd ++ rest))) =
      some (y, mo, dd, rest) := by
  rw [isoParseDate, read4_pad4 y hy]
  simp only [Option.bind_eq_bind, Option.some_bind]
  rw [expectChar, if_pos rfl]
  simp only [Option.some_bind]
  rw [read2_pad2 mo hmo]
  simp only [Option.some_bind]
  rw [expectChar, if_pos rfl]
  simp only [Option.some_bind]
  rw [read2_pad2 dd hdd]
  simp only [Option.some_bind]
  rfl

lemma isoParseTime_render (hh mi ss : Nat) (rest : List Char) (hhh : hh ≤ 99)
    (hmi : mi ≤ 99) (hss : ss ≤ 99) :
    isoParseTime ('T' :: (pad2 hh ++ ':' :: (pad2 mi ++ ':' :: (pad2 ss ++ rest)))) =
      some (hh, mi, ss, rest) := by
  rw [isoParseTime, expectChar, if_pos rfl]
  simp only [Option.bind_eq_bind, Option.some_bind]
  rw [read2_pad2 hh hhh]
  simp only [Option.some_bind]
  rw [expectChar, if_pos rfl]
  simp only [Option.some_bind]
  rw [read2_pad2 mi hmi]
  simp only [Option.some_bind]
  rw [expectChar, if_pos rfl]
  simp only [Option.some_bind]
  rw [read2_pad2 ss hss]
  simp only [Option.some_bind]
  rfl

/-- `isoParse` inverts `isoRender` on valid datetimes. -/
lemma isoParse_isoRender (d : PyDatetime) (hv : d.isValid) :
    isoParse (isoRender d) = some d := by
  obtain ⟨y, mo, dd, hh, mi, ss, us, tz⟩ := d
  obtain ⟨hv1, hv2, hv3, hv4, hv5, hv6, hv7, hv8, hv9, hv10, hv11⟩ := hv
  simp only at hv1 hv2 hv3 hv4 hv5 hv6 hv7 hv8 hv9 hv10 hv11
  rw [isoRender]
  dsimp only
  simp only [List.append_assoc, List.singleton_append, List.cons_append, List.nil_append]
  rw [isoParse, isoParseDate_render y mo dd _ (by omega) (by omega) (by omega)]
  simp only [Option.bind_eq_bind, Option.some_bind]
  rw [isoParseTime_render hh mi ss _ (by omega) (by omega) (by omega)]
  simp only [Option.some_bind]
  rw [parseMicroTz_render us tz (by omega) hv11]
  simp only [Option.some_bind]
  rw [if_pos]
  exact ⟨by omega, by omega, by omega, by omega, by omega, by omega, by omega,
    by omega, by omega, hv11⟩

/-! ### The header contains no `---`, and the full split -/

lemma keyChar_ne_dash (c : Char) (h : keyChar c = true) : c ≠ '-' := by
  intro he; rw [he] at h; exact absurd h (by decide)

lemma noDash3_headerLine (k v : List Char) (hk : ∀ c ∈ k, keyChar c = true)
    (hv : splitFirstDash3 v = none) : splitFirstDash3 (headerLine k v) = none := by
  rw [headerLine]
  apply splitFirstDash3_append_none
  · exact splitFirstDash3_of_all_ne _ fun c hc => keyChar_ne_dash c (hk c hc)
  · exact splitFirstDash3_consNe ':' _
      (splitFirstDash3_consNe ' ' _ hv (Or.inl (by decide))) (Or.inl (by decide))
  · right
    intro he
    exact absurd (Option.some.inj he) (by decide)

lemma noDash3_block (k v rest : List Char) (hk : ∀ c ∈ k, keyChar c = true)
    (hv : splitFirstDash3 v = none) (hrest : splitFirstDash3 rest = none) :
    splitFirstDash3 (headerLine k v ++ '\n' :: rest) = none := by
  apply splitFirstDash3_append_none _ _ (noDash3_headerLine k v hk hv)
    (splitFirstDash3_consNe '\n' rest hrest (Or.inl (by decide)))
  right
  intro he
  exact absurd (Option.some.inj he) (by decide)

lemma noDash3_yamlHeader (s : LoopState) (hplain : plainSafe s.completion_promise = true)
    (hnd : splitFirstDash3 s.completion_promise = none) (hdt : s.started_at.isValid) :
    splitFirstDash3 (yamlHeader s) = none := by
  rw [yamlHeader]
  refine noDash3_block _ _ _ (by decide) ?_ ?_
  · cases s.active
    · rw [if_neg (by simp)]; decide
    · rw [if_pos rfl]; decide
  refine noDash3_block _ _ _ (by decide)
    (splitFirstDash3_of_all_ne _ fun c hc => isDigit_ne_dash c (natStr_all_digit _ c hc)) ?_
  refine noDash3_block _ _ _ (by decide)
    (splitFirstDash3_of_all_ne _ fun c hc => isDigit_ne_dash c (natStr_all_digit _ c hc)) ?_
  refine noDash3_block _ _ _ (by decide)
    (splitFirstDash3_of_all_ne _ fun c hc => isDigit_ne_dash c (natStr_all_digit _ c hc)) ?_
  refine noDash3_block _ _ _ (by decide)
    (by rw [yamlStrScalar, if_pos hplain]; exact hnd) ?_
  refine noDash3_block _ _ _ (by decide) ?_ rfl
  refine splitFirstDash3_consNe sq _ ?_ (Or.inl (by decide))
  apply splitFirstDash3_append_none _ _ (noDash3_isoRender _ hdt) (by decide)
  right
  intro he
  exact absurd (Option.some.inj he) (by decide)

lemma getLast?_append_cons_nl (x rest : List Char) :
    (x ++ '\n' :: rest).getLast? = ('\n' :: rest).getLast? :=
  List.getLast?_append_of_ne_nil x (by simp)

lemma getLast?_cons_of_ne_nil (c : Char) (l : List Char) (h : l ≠ []) :
    (c :: l).getLast? = l.getLast? := by
  cases l with
  | nil => exact absurd rfl h
  | cons a as => exact List.getLast?_cons_cons

lemma yamlHeader_getLast (s : LoopState) : (yamlHeader s).getLast? = some '\n' := by
  rw [yamlHeader, getLast?_append_cons_nl, getLast?_cons_of_ne_nil _ _ (by simp),
    getLast?_append_cons_nl, getLast?_cons_of_ne_nil _ _ (by simp),
    getLast?_append_cons_nl, getLast?_cons_of_ne_nil _ _ (by simp),
    getLast?_append_cons_nl, getLast?_cons_of_ne_nil _ _ (by simp),
    getLast?_append_cons_nl, getLast?_cons_of_ne_nil _ _ (by simp),
    getLast?_append_cons_nl]
  rfl

/-! ### Last-wins dictionary lookups -/

lemma lookupLast_append_right (xs : List (List Char × YamlVal)) (k : List Char)
    (v : YamlVal) : lookupLast k (xs ++ [(k, v)]) = some v := by
  induction xs with
  | nil =>
    rw [List.nil_append, lookupLast, lookupLast, if_pos rfl]
  | cons x rest ih =>
    obtain ⟨k', v'⟩ := x
    rw [List.cons_append, lookupLast, ih]

lemma lookupLast_append_ne (xs : List (List Char × YamlVal)) (k k2 : List Char)
    (v : YamlVal) (h : k2 ≠ k) :
    lookupLast k (xs ++ [(k2, v)]) = lookupLast k xs := by
  induction xs with
  | nil =>
    rw [List.nil_append, lookupLast, lookupLast, lookupLast, if_neg h]
  | cons x rest ih =>
    obtain ⟨k', v'⟩ := x
    rw [List.cons_append, lookupLast, ih, lookupLast]

/-! ### Assembling the round trip -/

lemma pyStrip_cons_ws (c : Char) (l : List Char) (h : isPyWs c = true) :
    pyStrip (c :: l) = pyStrip l := by
  rw [pyStrip, pyStrip, dropLeadingWs, if_pos h]

lemma to_markdown_shape (s : LoopState) :
    LoopState.to_markdown s =
      '-' :: '-' :: '-' :: (('\n' :: yamlHeader s) ++
        ('-' :: '-' :: '-' :: ('\n' :: '\n' :: s.prompt))) := by
  rw [LoopState.to_markdown]
  simp only [List.append_assoc]
  rfl

lemma stateValidate_full (act : Bool) (it mn mx : Nat) (pr : List Char)
    (dt : PyDatetime) (pm : List Char) (now : PyDatetime)
    (h1 : 1 ≤ it) (h2 : 1 ≤ mn) (hdt : dt.isValid) :
    stateValidate ([("active".data, .bool act),
      ("iteration".data, .int (it : Int)),
      ("min_iterations".data, .int (mn : Int)),
      ("max_iterations".data, .int (mx : Int)),
      ("completion_promise".data, .str pr),
      ("started_at".data, .str (isoRender dt))] ++ [("prompt".data, .str pm)]) now =
      some ⟨act, it, mn, mx, pr, dt, pm⟩ := by
  have hi1 : (1 : Int) ≤ (it : Int) := by exact_mod_cast h1
  have hi2 : (1 : Int) ≤ (mn : Int) := by exact_mod_cast h2
  have hi3 : (0 : Int) ≤ (mx : Int) := by positivity
  simp +decide [stateValidate, getBoolField, getNatField, getStrField,
    getDatetimeField, lookupLast, hi1, hi2, hi3, isoParse_isoRender dt hdt]

/-- C2 (amended): serialization followed by deserialization reproduces every
field, with the prompt stripped of leading and trailing whitespace, for
every valid state whose completion promise is a plain YAML scalar containing
no occurrence of the `---` delimiter. -/
theorem c2_markdown_round_trip_amended (s : LoopState) (now : PyDatetime)
    (hs : s.isValid) (hdt : s.started_at.isValid)
    (hplain : plainSafe s.completion_promise = true)
    (hnd : splitFirstDash3 s.completion_promise = none) :
    LoopState.from_markdown now s.to_markdown =
      some { s with prompt := pyStrip s.prompt } := by
  obtain ⟨hs1, hs2⟩ := hs
  have hmidnone : splitFirstDash3 ('\n' :: yamlHeader s) = none :=
    splitFirstDash3_consNe '\n' _ (noDash3_yamlHeader s hplain hnd hdt)
      (Or.inl (by decide))
  have hmidlast : ('\n' :: yamlHeader s).getLast? ≠ some '-' := by
    rw [getLast?_cons_of_ne_nil _ _ (by rw [yamlHeader]; simp), yamlHeader_getLast]
    intro he
    exact absurd (Option.some.inj he) (by decide)
  have hsp1 : splitFirstDash3 s.to_markdown =
      some ([], ('\n' :: yamlHeader s) ++
        ('-' :: '-' :: '-' :: ('\n' :: '\n' :: s.prompt))) := by
    rw [to_markdown_shape s]
    exact splitFirstDash3_boundary [] _ rfl (by simp)
  have hsp2 : splitFirstDash3 (('\n' :: yamlHeader s) ++
      ('-' :: '-' :: '-' :: ('\n' :: '\n' :: s.prompt))) =
      some ('\n' :: yamlHeader s, '\n' :: '\n' :: s.prompt) :=
    splitFirstDash3_boundary _ _ hmidnone hmidlast
  have hsplit : pySplitDash3 s.to_markdown =
      [[], '\n' :: yamlHeader s, '\n' :: '\n' :: s.prompt] := by
    rw [pySplitDash3, hsp1]
    dsimp only
    rw [hsp2]
  have hstrip : pyStrip ('\n' :: '\n' :: s.prompt) = pyStrip s.prompt := by
    rw [pyStrip_cons_ws _ _ (by decide), pyStrip_cons_ws _ _ (by decide)]
  rw [LoopState.from_markdown, hsplit]
  dsimp only
  rw [parseHeader s hplain hdt]
  simp only [Option.bind_eq_bind, Option.some_bind, List.isEmpty_cons,
    Bool.false_eq_true, if_false]
  rw [hstrip]
  exact stateValidate_full s.active s.iteration s.min_iterations s.max_iterations
    s.completion_promise s.started_at (pyStrip s.prompt) now hs1 hs2 hdt

set_option maxRecDepth 10000 in
/-- C2 (corrected; counterexample): a completion promise containing the
`---` delimiter breaks the round trip.  `split("---", 2)` cuts the
serialized document at the occurrence inside the promise, so the promise
comes back truncated to `a` and the remainder of the header is swallowed
into the prompt. -/
theorem c2_round_trip_counterexample :
    sBadPromise.completion_promise = "a---b".data ∧
    (LoopState.from_markdown dtW sBadPromise.to_markdown).map
        LoopState.completion_promise = some "a".data ∧
    LoopState.from_markdown dtW sBadPromise.to_markdown ≠
      some { sBadPromise with prompt := pyStrip sBadPromise.prompt } := by
  refine ⟨by decide, by decide, by decide⟩

/-- Witness for the amended round-trip theorem at a concrete valid state. -/
theorem c2_round_trip_witness :
    (sW.isValid ∧ PyDatetime.isValid sW.started_at ∧
      plainSafe sW.completion_promise = true ∧
      splitFirstDash3 sW.completion_promise = none) ∧
    LoopState.from_markdown dtW sW.to_markdown =
      some { sW with prompt := pyStrip sW.prompt } :=
  ⟨⟨⟨by decide, by decide⟩, by decide, by decide, by decide⟩,
    c2_markdown_round_trip_amended sW dtW ⟨by decide, by decide⟩ (by decide)
      (by decide) (by decide)⟩

/-! ### Bounds enforced by deserialization (C9) -/

lemma getNatField_ge (fs : List (List Char × YamlVal)) (k : List Char)
    (lo d v : Nat) (hd : lo ≤ d) (h : getNatField fs k lo d = some v) : lo ≤ v := by
  rw [getNatField] at h
  split at h
  all_goals try split at h
  all_goals try split at h
  all_goals first
    | (injection h with h; omega)
    | exact Option.noConfusion h

lemma stateValidate_bounds (fs : List (List Char × YamlVal)) (now : PyDatetime)
    (st : LoopState) (h : stateValidate fs now = some st) :
    1 ≤ st.iteration ∧ 1 ≤ st.min_iterations := by
  rw [stateValidate] at h
  cases h1 : getBoolField fs "active".data true with
  | none => rw [h1] at h; simp at h
  | some act =>
  rw [h1] at h
  simp only [Option.bind_eq_bind, Option.some_bind] at h
  cases h2 : getNatField fs "iteration".data 1 1 with
  | none => rw [h2] at h; simp at h
  | some it =>
  rw [h2] at h
  simp only [Option.some_bind] at h
  cases h3 : getNatField fs "min_iterations".data 1 1 with
  | none => rw [h3] at h; simp at h
  | some mn =>
  rw [h3] at h
  simp only [Option.some_bind] at h
  cases h4 : getNatField fs "max_iterations".data 0 0 with
  | none => rw [h4] at h; simp at h
  | some mx =>
  rw [h4] at h
  simp only [Option.some_bind] at h
  cases h5 : getStrField fs "completion_promise".data "COMPLETE".data with
  | none => rw [h5] at h; simp at h
  | some pr =>
  rw [h5] at h
  simp only [Option.some_bind] at h
  cases h6 : getDatetimeField fs "started_at".data now with
  | none => rw [h6] at h; simp at h
  | some dt =>
  rw [h6] at h
  simp only [Option.some_bind] at h
  cases h7 : lookupLast "prompt".data fs with
  | none => rw [h7] at h; simp at h
  | some pv =>
  rw [h7] at h
  cases pv with
  | null => simp at h
  | bool b => simp at h
  | int n => simp at h
  | str pm =>
    simp only [Option.some_bind] at h
    obtain rfl := Option.some.inj h
    exact ⟨getNatField_ge _ _ _ _ _ (le_refl 1) h2,
      getNatField_ge _ _ _ _ _ (le_refl 1) h3⟩

lemma stateValidate_none_iter (fs : List (List Char × YamlVal)) (now : PyDatetime)
    (n : Int) (hn : n < 1) (hl : lookupLast "iteration".data fs = some (.int n)) :
    stateValidate fs now = none := by
  have hg : getNatField fs "iteration".data 1 1 = none := by
    rw [getNatField, hl]
    show (if ((1 : Nat) : Int) ≤ n then some n.toNat else none) = none
    rw [if_neg]
    omega
  rw [stateValidate]
  cases h1 : getBoolField fs "active".data true <;>
    simp [hg]

lemma stateValidate_none_min (fs : List (List Char × YamlVal)) (now : PyDatetime)
    (n : Int) (hn : n < 1)
    (hl : lookupLast "min_iterations".data fs = some (.int n)) :
    stateValidate fs now = none := by
  have hg : getNatField fs "min_iterations".data 1 1 = none := by
    rw [getNatField, hl]
    show (if ((1 : Nat) : Int) ≤ n then some n.toNat else none) = none
    rw [if_neg]
    omega
  rw [stateValidate]
  cases h1 : getBoolField fs "active".data true <;>
    cases h2 : getNatField fs "iteration".data 1 1 <;>
      simp [hg]

lemma stateValidate_none_max (fs : List (List Char × YamlVal)) (now : PyDatetime)
    (n : Int) (hn : n < 0)
    (hl : lookupLast "max_iterations".data fs = some (.int n)) :
    stateValidate fs now = none := by
  have hg : getNatField fs "max_iterations".data 0 0 = none := by
    rw [getNatField, hl]
    show (if ((0 : Nat) : Int) ≤ n then some n.toNat else none) = none
    rw [if_neg]
    omega
  rw [stateValidate]
  cases h1 : getBoolField fs "active".data true <;>
    cases h2 : getNatField fs "iteration".data 1 1 <;>
      cases h3 : getNatField fs "min_iterations".data 1 1 <;>
        simp [hg]

/-- C9: every state `from_markdown` returns satisfies the pydantic `ge`
bounds, and a frontmatter value violating a bound makes validation fail
rather than producing a state.  (`max_iterations` is a natural number in
this model, so its lower bound is expressed by the rejection of negative
header values.) -/
theorem c9_deserialized_bounds :
    (∀ (now : PyDatetime) (content : List Char) (st : LoopState),
      LoopState.from_markdown now content = some st →
        1 ≤ st.iteration ∧ 1 ≤ st.min_iterations) ∧
    (∀ (fs : List (List Char × YamlVal)) (now : PyDatetime) (n : Int), n < 1 →
      lookupLast "iteration".data fs = some (.int n) →
        stateValidate fs now = none) ∧
    (∀ (fs : List (List Char × YamlVal)) (now : PyDatetime) (n : Int), n < 1 →
      lookupLast "min_iterations".data fs = some (.int n) →
        stateValidate fs now = none) ∧
    (∀ (fs : List (List Char × YamlVal)) (now : PyDatetime) (n : Int), n < 0 →
      lookupLast "max_iterations".data fs = some (.int n) →
        stateValidate fs now = none) := by
  refine ⟨?_, stateValidate_none_iter, stateValidate_none_min, stateValidate_none_max⟩
  intro now content st h
  rw [LoopState.from_markdown] at h
  rcases content' : pySplitDash3 content with _ | ⟨a, _ | ⟨b, _ | ⟨c, _ | ⟨d, t⟩⟩⟩⟩ <;>
    rw [content'] at h
  · exact Option.noConfusion h
  · exact Option.noConfusion h
  · exact Option.noConfusion h
  · have h1 : Option.bind (parseYamlMapping b)
        (fun fm => if fm.isEmpty = true then none
          else stateValidate (fm ++ [("prompt".data, YamlVal.str (pyStrip c))]) now) =
        some st := h
    cases hfm : parseYamlMapping b with
    | none => rw [hfm] at h1; exact Option.noConfusion h1
    | some fm =>
      rw [hfm] at h1
      have h2 : (if fm.isEmpty = true then none
          else stateValidate (fm ++ [("prompt".data, YamlVal.str (pyStrip c))]) now) =
          some st := h1
      cases hie : fm.isEmpty with
      | true => rw [hie] at h2; exact Option.noConfusion h2
      | false =>
        rw [hie] at h2
        simp only [Bool.false_eq_true, if_false] at h2
        exact stateValidate_bounds _ _ _ h2
  · exact Option.noConfusion h

set_option maxRecDepth 10000 in
/-- Witness for the bounds theorem: the round-tripped witness state, and a
frontmatter with `iteration: 0` that validation rejects. -/
theorem c9_deserialized_bounds_witness :
    (1 ≤ ({ sW with prompt := pyStrip sW.prompt } : LoopState).iteration ∧
      1 ≤ ({ sW with prompt := pyStrip sW.prompt } : LoopState).min_iterations) ∧
    stateValidate [("iteration".data, .int 0), ("prompt".data, .str "p".data)] dtW =
      none :=
  ⟨c9_deserialized_bounds.1 dtW sW.to_markdown _ (by decide),
    c9_deserialized_bounds.2.1 _ dtW 0 (by decide) (by decide)⟩

/-! ### Partial headers and field defaults (C10) -/

/-- C10: the header need not list every field.  Validating a frontmatter
that holds only the injected prompt fills every other field with its
declared default (`active = true`, `iteration = 1`, `min_iterations = 1`,
`max_iterations = 0`, `completion_promise = "COMPLETE"`, `started_at` from
the `default_factory`); and a full `from_markdown` run on a document whose
frontmatter contains only `iteration: n` succeeds, keeps that `n`, defaults
the rest, and makes the stripped body the prompt. -/
theorem c10_partial_header_defaults :
    (∀ (now : PyDatetime) (pm : List Char),
      stateValidate [("prompt".data, .str pm)] now =
        some ⟨true, 1, 1, 0, "COMPLETE".data, now, pm⟩) ∧
    (∀ (now : PyDatetime) (n : Nat) (body : List Char), 1 ≤ n →
      LoopState.from_markdown now
          ("---\niteration: ".data ++ natStr n ++ "\n---".data ++ body) =
        some ⟨true, n, 1, 0, "COMPLETE".data, now, pyStrip body⟩) := by
  constructor
  · intro now pm
    simp +decide [stateValidate, getBoolField, getNatField, getStrField,
      getDatetimeField, lookupLast]
  · intro now n body hn
    have hshape : "---\niteration: ".data ++ natStr n ++ "\n---".data ++ body =
        '-' :: '-' :: '-' ::
          (('\n' :: (headerLine "iteration".data (natStr n) ++ ['\n'])) ++
            ('-' :: '-' :: '-' :: body)) := by
      simp only [headerLine, List.append_assoc, List.cons_append, List.nil_append]
    have hhd : splitFirstDash3 (headerLine "iteration".data (natStr n) ++ ['\n']) =
        none := by
      apply splitFirstDash3_append_none
      · exact noDash3_headerLine _ _ (by decide) (splitFirstDash3_of_all_ne _
          fun c hc => isDigit_ne_dash c (natStr_all_digit _ c hc))
      · decide
      · right
        intro he
        exact absurd (Option.some.inj he) (by decide)
    have ha_none :
        splitFirstDash3 ('\n' :: (headerLine "iteration".data (natStr n) ++ ['\n'])) =
        none :=
      splitFirstDash3_consNe '\n' _ hhd (Or.inl (by decide))
    have ha_last :
        ('\n' :: (headerLine "iteration".data (natStr n) ++ ['\n'])).getLast? ≠
        some '-' := by
      rw [getLast?_cons_of_ne_nil _ _ (by simp),
        List.getLast?_append_of_ne_nil _ (by simp)]
      decide
    have hsp1 : splitFirstDash3
        ("---\niteration: ".data ++ natStr n ++ "\n---".data ++ body) =
        some ([], ('\n' :: (headerLine "iteration".data (natStr n) ++ ['\n'])) ++
          ('-' :: '-' :: '-' :: body)) := by
      rw [hshape]
      exact splitFirstDash3_boundary [] _ rfl (by simp)
    have hsp2 : splitFirstDash3
        (('\n' :: (headerLine "iteration".data (natStr n) ++ ['\n'])) ++
          ('-' :: '-' :: '-' :: body)) =
        some ('\n' :: (headerLine "iteration".data (natStr n) ++ ['\n']), body) :=
      splitFirstDash3_boundary _ _ ha_none ha_last
    have hsplit : pySplitDash3
        ("---\niteration: ".data ++ natStr n ++ "\n---".data ++ body) =
        [[], '\n' :: (headerLine "iteration".data (natStr n) ++ ['\n']), body] := by
      rw [pySplitDash3, hsp1]
      dsimp only
      rw [hsp2]
    have hfm : parseYamlMapping
        ('\n' :: (headerLine "iteration".data (natStr n) ++ ['\n'])) =
        some [("iteration".data, .int (n : Int))] := by
      rw [parseYamlMapping_cons_nl]
      exact parseYamlMapping_build _ _ [] _ _ (by decide) (by decide)
        (fun c hc => isDigit_ne_nl c (natStr_all_digit _ c hc))
        (resolveScalar_natStr n) parseYamlMapping_nil
    rw [LoopState.from_markdown, hsplit]
    dsimp only
    rw [hfm]
    simp only [Option.bind_eq_bind, Option.some_bind, List.isEmpty_cons,
      Bool.false_eq_true, if_false]
    have hi1 : (1 : Int) ≤ (n : Int) := by exact_mod_cast hn
    simp +decide [stateValidate, getBoolField, getNatField, getStrField,
      getDatetimeField, lookupLast, hi1]

/-! ### Loop orchestration proofs (C3, C4, C5, C8) -/

lemma cleanup_eq_none (file : Option (List Char)) : cleanup file = none := by
  cases file <;> rfl

lemma unlink_missing_ok (file : Option (List Char)) :
    unlink true file = .ok (cleanup file) := by
  cases file <;> rfl

/-- Every terminated run leaves the state file deleted, carries the exit
code its outcome's `sys.exit` call passes, performed completion checks only
at iterations that reached the minimum, and can only have completed at such
an iteration. -/
lemma runLoopAux_exit_shape (config : LoopConfig) (env : Env) :
    ∀ (fuel iter : Nat) (file : Option (List Char)) (runs checks : List Nat)
      (r : RunResult),
      runLoopAux config env fuel iter file runs checks = some r →
      (∀ j ∈ checks, config.min_iterations ≤ j) →
      r.file = none ∧ r.exitCode = outcomeCode r.outcome ∧
      (∀ j ∈ r.checks, config.min_iterations ≤ j) ∧
      (∀ j, r.outcome = .completed j → config.min_iterations ≤ j) := by
  intro fuel
  induction fuel with
  | zero =>
    intro iter file runs checks r h hc
    exact absurd h (by rw [runLoopAux]; exact Option.noConfusion)
  | succ f ih =>
    intro iter file runs checks r h hc
    simp only [runLoopAux] at h
    split at h
    · injection h with h
      subst h
      refine ⟨by simp only [cleanup_eq_none], rfl, hc, ?_⟩
      intro j hj
      exact Outcome.noConfusion hj
    · split at h
      next hcond =>
        injection h with h
        subst h
        refine ⟨by simp only [cleanup_eq_none], rfl, ?_, ?_⟩
        · intro j hj
          rw [if_pos hcond.1] at hj
          rcases List.mem_append.1 hj with hj | hj
          · exact hc j hj
          · rcases List.mem_singleton.1 hj with rfl
            exact hcond.1
        · intro j hj
          injection hj with hj
          exact hj ▸ hcond.1
      next hcond =>
        split at h
        next hmax =>
          injection h with h
          subst h
          refine ⟨by simp only [cleanup_eq_none], rfl, ?_, ?_⟩
          · intro j hj
            by_cases hmin : config.min_iterations ≤ iter + 1
            · rw [if_pos hmin] at hj
              rcases List.mem_append.1 hj with hj | hj
              · exact hc j hj
              · rcases List.mem_singleton.1 hj with rfl
                exact hmin
            · rw [if_neg hmin] at hj
              exact hc j hj
          · intro j hj
            exact Outcome.noConfusion hj
        next hmax =>
          refine ih _ _ _ _ _ h ?_
          intro j hj
          by_cases hmin : config.min_iterations ≤ iter + 1
          · rw [if_pos hmin] at hj
            rcases List.mem_append.1 hj with hj | hj
            · exact hc j hj
            · rcases List.mem_singleton.1 hj with rfl
              exact hmin
          · rw [if_neg hmin] at hj
            exact hc j hj

/-- When no session ever satisfies the promise and no interrupt arrives,
the loop reaches `max_iterations` exactly, having run every iteration from
the current one up to the bound. -/
lemma runLoopAux_max_reached (config : LoopConfig) (env : Env)
    (hmax : 0 < config.max_iterations)
    (hno : ∀ k, checkNow config env k = false)
    (hintr : ∀ k, env.intrAt k = false) :
    ∀ (fuel iter : Nat), iter < config.max_iterations →
      config.max_iterations - iter ≤ fuel →
      ∀ (file : Option (List Char)) (runs checks : List Nat),
      runLoopAux config env fuel iter file runs checks =
        some ⟨.maxReached config.max_iterations, 0, none,
          runs ++ List.range' (iter + 1) (config.max_iterations - iter),
          checks ++ (List.range' (iter + 1) (config.max_iterations - iter)).filter
            (fun j => decide (config.min_iterations ≤ j))⟩ := by
  intro fuel
  induction fuel with
  | zero =>
    intro iter h1 h2
    omega
  | succ f ih =>
    intro iter h1 h2 file runs checks
    simp only [runLoopAux, hintr, Bool.false_eq_true, if_false, hno, and_false,
      cleanup_eq_none]
    by_cases hm : config.max_iterations ≤ iter + 1
    · rw [if_pos ⟨hmax, hm⟩]
      have hk : iter + 1 = config.max_iterations := by omega
      have hone : config.max_iterations - iter = 1 := by omega
      rw [hone, List.range'_succ]
      simp only [List.range'_zero, List.filter_cons, List.filter_nil]
      by_cases hmin : config.min_iterations ≤ iter + 1
      · rw [if_pos hmin, if_pos (by simpa using hmin), hk]
      · rw [if_neg hmin, if_neg (by simpa using hmin), hk]
        simp
    · rw [if_neg (fun hcon => hm hcon.2)]
      rw [ih (iter + 1) (by omega) (by omega)]
      have hn1 : config.max_iterations - iter = (config.max_iterations - (iter + 1)) + 1 := by
        omega
      rw [hn1, List.range'_succ]
      by_cases hmin : config.min_iterations ≤ iter + 1
      · simp [hmin, List.filter_cons]
      · simp [hmin, List.filter_cons]

/-- When the agent config file exists, `KiroClient.__init__` succeeds
whatever the configured agent name. -/
lemma kiroClientInit_ok (agent_name : Option (List Char)) (fe : Bool)
    (hfe : fe = true) : ∃ nm, kiroClientInit agent_name fe = .ok nm := by
  cases agent_name with
  | none => exact ⟨_, by rw [kiroClientInit, defaultAgentName, if_pos hfe]⟩
  | some n =>
    by_cases hn : n = []
    · exact ⟨_, by rw [kiroClientInit, if_pos hn, defaultAgentName, if_pos hfe]⟩
    · exact ⟨_, by rw [kiroClientInit, if_neg hn]⟩

lemma run_loop_of_ok (config : LoopConfig) (env : Env) (fuel : Nat)
    (hagent : env.agentFileExists = true) :
    run_loop config env fuel =
      match runLoopAux config env fuel 0 none [] [] with
      | none => LoopExit.running
      | some r => LoopExit.finished r := by
  obtain ⟨nm, hinit⟩ := kiroClientInit_ok config.agent_name env.agentFileExists hagent
  rw [run_loop, hinit]

/-- C3: with a positive `max_iterations` bound and a completion promise
that never appears, `run_loop` performs exactly `max_iterations` chat
invocations — one per iteration, iterations `1` through `max_iterations` —
then stops with the max-reached outcome and the state file deleted. -/
theorem c3_max_iterations_stop (config : LoopConfig) (env : Env) (fuel : Nat)
    (hmax : 0 < config.max_iterations)
    (hno : ∀ k, checkNow config env k = false)
    (hintr : ∀ k, env.intrAt k = false)
    (hagent : env.agentFileExists = true)
    (hfuel : config.max_iterations ≤ fuel) :
    run_loop config env fuel =
      .finished ⟨.maxReached config.max_iterations, 0, none,
        List.range' 1 config.max_iterations,
        (List.range' 1 config.max_iterations).filter
          (fun j => decide (config.min_iterations ≤ j))⟩ ∧
    (List.range' 1 config.max_iterations).length = config.max_iterations := by
  refine ⟨?_, List.length_range' _ _ _⟩
  have hrun := runLoopAux_max_reached config env hmax hno hintr fuel 0 hmax
    (by omega) none [] []
  simp only [Nat.sub_zero] at hrun
  rw [run_loop_of_ok config env fuel hagent, hrun]
  rfl

set_option maxRecDepth 100000 in
/-- Witness: `max_iterations = 3`, promise never found, no interrupt —
exactly the chats of iterations `1`, `2`, `3` run. -/
theorem c3_max_iterations_stop_witness :
    (0 < cfgW.max_iterations ∧ (∀ k, checkNow cfgW envW k = false) ∧
      (∀ k, envW.intrAt k = false) ∧ envW.agentFileExists = true ∧
      cfgW.max_iterations ≤ 5) ∧
    run_loop cfgW envW 5 =
      .finished ⟨.maxReached 3, 0, none, [1, 2, 3], [1, 2, 3]⟩ := by
  refine ⟨⟨by decide, fun k => rfl, fun k => rfl, rfl, by decide⟩, ?_⟩
  have h := (c3_max_iterations_stop cfgW envW 5 (by decide) (fun k => rfl)
    (fun k => rfl) rfl (by decide)).1
  rw [h]
  rfl

/-- C4: (i) in every terminated run the completion check was performed only
at iterations that had reached `min_iterations`, and a `Completed` outcome
can only occur at such an iteration; (ii) in the claim's scenario —
`min_iterations = 2`, unlimited max, the completion promise already present
in the session after iteration 1 — the loop does not stop at iteration 1:
it completes at iteration 2, and the only completion check is at
iteration 2. -/
theorem c4_min_iterations_gating :
    (∀ (config : LoopConfig) (env : Env) (fuel iter : Nat)
        (file : Option (List Char)) (r : RunResult),
      runLoopAux config env fuel iter file [] [] = some r →
        (∀ j ∈ r.checks, config.min_iterations ≤ j) ∧
        (∀ j, r.outcome = .completed j → config.min_iterations ≤ j)) ∧
    (∀ (config : LoopConfig) (env : Env) (fuel : Nat),
      config.min_iterations = 2 → config.max_iterations = 0 →
      (∀ k, checkNow config env k = true) → (∀ k, env.intrAt k = false) →
      env.agentFileExists = true → 2 ≤ fuel →
      run_loop config env fuel =
        .finished ⟨.completed 2, 0, none, [1, 2], [2]⟩) := by
  constructor
  · intro config env fuel iter file r h
    have hs := runLoopAux_exit_shape config env fuel iter file [] [] r h
      (by intro j hj; cases hj)
    exact ⟨hs.2.2.1, hs.2.2.2⟩
  · intro config env fuel hmin hmax hyes hintr hagent hfuel
    obtain ⟨f, rfl⟩ : ∃ f, fuel = f + 1 + 1 := ⟨fuel - 2, by omega⟩
    have hn1 : ¬(config.min_iterations ≤ 0 + 1 ∧
        checkNow config env (0 + 1) = true) := by
      rintro ⟨hco, -⟩
      omega
    have hn2 : ¬(0 < config.max_iterations ∧ config.max_iterations ≤ 0 + 1) := by
      rintro ⟨hco, -⟩
      omega
    have hn3 : ¬config.min_iterations ≤ 0 + 1 := by omega
    have hp1 : config.min_iterations ≤ 0 + 1 + 1 ∧
        checkNow config env (0 + 1 + 1) = true := ⟨by omega, hyes _⟩
    have hp2 : config.min_iterations ≤ 0 + 1 + 1 := by omega
    have hloop : runLoopAux config env (f + 1 + 1) 0 none [] [] =
        some ⟨.completed 2, 0, none, [1, 2], [2]⟩ := by
      rw [runLoopAux]
      simp only [hintr, Bool.false_eq_true, if_false]
      rw [if_neg hn1, if_neg hn2, if_neg hn3, runLoopAux]
      simp only [hintr, Bool.false_eq_true, if_false]
      rw [if_pos hp1, if_pos hp2, cleanup_eq_none]
      rfl
    rw [run_loop_of_ok config env _ hagent, hloop]

set_option maxRecDepth 100000 in
/-- Witness for the gating theorem: part (i) at the concrete max-reached
run, part (ii) at a session that already carries the promise `DONE` at
iteration 1. -/
theorem c4_min_iterations_gating_witness :
    (runLoopAux cfgW envW 5 0 none [] [] =
        some ⟨.maxReached 3, 0, none, [1, 2, 3], [1, 2, 3]⟩ ∧
      (∀ j ∈ [1, 2, 3], cfgW.min_iterations ≤ j)) ∧
    run_loop cfgC4 envC4 5 = .finished ⟨.completed 2, 0, none, [1, 2], [2]⟩ := by
  constructor
  · constructor
    · decide
    · have h := (c4_min_iterations_gating.1 cfgW envW 5 0 none
        ⟨.maxReached 3, 0, none, [1, 2, 3], [1, 2, 3]⟩ (by decide)).1
      exact h
  · exact c4_min_iterations_gating.2 cfgC4 envC4 5 rfl rfl (fun k => rfl)
      (fun k => rfl) rfl (by decide)

set_option maxRecDepth 100000 in
/-- C5 (corrected; counterexample): reaching the max bound exits with
status `0` — the same status as successful completion, not a distinct
non-zero one. -/
theorem c5_exit_status_counterexample :
    run_loop cfgW envW 5 =
      .finished ⟨.maxReached 3, 0, none, [1, 2, 3], [1, 2, 3]⟩ ∧
    exitStatusOf (run_loop cfgW envW 5) = some 0 ∧
    run_loop cfgC4 envC4 5 = .finished ⟨.completed 2, 0, none, [1, 2], [2]⟩ ∧
    exitStatusOf (run_loop cfgC4 envC4 5) = some 0 := by
  refine ⟨by decide, by decide, by decide, by decide⟩

/-- C5 (amended): the loop's `sys.exit` codes are `0` for completion and
for the max bound alike, and `1` on interrupt; an uncaught configuration
error terminates the interpreter with status `1`.  The interrupted status
does differ from the success status. -/
theorem c5_exit_status_amended :
    (∀ (config : LoopConfig) (env : Env) (fuel iter : Nat)
        (file : Option (List Char)) (runs checks : List Nat) (r : RunResult),
      runLoopAux config env fuel iter file runs checks = some r →
        r.exitCode = outcomeCode r.outcome) ∧
    (∀ e : PyErr, exitStatusOf (.uncaught e) = some 1) ∧
    (∀ i j : Nat, outcomeCode (.interrupted i) ≠ outcomeCode (.completed j)) ∧
    (∀ i j : Nat, outcomeCode (.maxReached i) = outcomeCode (.completed j)) := by
  refine ⟨?_, fun e => rfl, fun i j => Nat.one_ne_zero, fun i j => rfl⟩
  intro config env fuel
  induction fuel with
  | zero =>
    intro iter file runs checks r h
    exact absurd h (by rw [runLoopAux]; exact Option.noConfusion)
  | succ f ih =>
    intro iter file runs checks r h
    simp only [runLoopAux] at h
    split at h
    · injection h with h
      subst h
      rfl
    · split at h
      next hcond =>
        injection h with h
        subst h
        rfl
      next hcond =>
        split at h
        next hm =>
          injection h with h
          subst h
          rfl
        next hm =>
          exact ih _ _ _ _ _ h

set_option maxRecDepth 100000 in
/-- Witness: an interrupted run carries exit code `1 = outcomeCode`. -/
theorem c5_exit_status_amended_witness :
    runLoopAux cfgW envI 1 0 none [] [] =
      some ⟨.interrupted 1, 1, none, [], []⟩ ∧
    (⟨.interrupted 1, 1, none, [], []⟩ : RunResult).exitCode =
      outcomeCode (⟨.interrupted 1, 1, none, [], []⟩ : RunResult).outcome :=
  ⟨by decide,
    c5_exit_status_amended.1 cfgW envI 1 0 none [] [] _ (by decide)⟩

/-- C8: every terminated run — completed, max-reached or interrupted —
leaves the state file deleted; `cleanup` removes whatever is there, and the
removal is idempotent and does not fail on an absent file thanks to
`missing_ok`. -/
theorem c8_cleanup_on_every_exit :
    (∀ (config : LoopConfig) (env : Env) (fuel iter : Nat)
        (file : Option (List Char)) (runs checks : List Nat) (r : RunResult),
      runLoopAux config env fuel iter file runs checks = some r →
        r.file = none) ∧
    (∀ file : Option (List Char), cleanup file = none) ∧
    (∀ file : Option (List Char), cleanup (cleanup file) = cleanup file) ∧
    (∀ file : Option (List Char), unlink true file = .ok (cleanup file)) ∧
    unlink true none = .ok none := by
  refine ⟨?_, cleanup_eq_none, ?_, unlink_missing_ok, rfl⟩
  · intro config env fuel
    induction fuel with
    | zero =>
      intro iter file runs checks r h
      exact absurd h (by rw [runLoopAux]; exact Option.noConfusion)
    | succ f ih =>
      intro iter file runs checks r h
      simp only [runLoopAux] at h
      split at h
      · injection h with h
        subst h
        simp only [cleanup_eq_none]
      · split at h
        next hcond =>
          injection h with h
          subst h
          simp only [cleanup_eq_none]
        next hcond =>
          split at h
          next hm =>
            injection h with h
            subst h
            simp only [cleanup_eq_none]
          next hm =>
            exact ih _ _ _ _ _ h
  · intro file
    rw [cleanup_eq_none, cleanup_eq_none]

set_option maxRecDepth 100000 in
/-- Witness: the interrupted run of iteration 1 has its file removed. -/
theorem c8_cleanup_on_every_exit_witness :
    runLoopAux cfgC4 envI 1 0 none [] [] =
      some ⟨.interrupted 1, 1, none, [], []⟩ ∧
    (⟨.interrupted 1, 1, none, [], []⟩ : RunResult).file = none :=
  ⟨by decide,
    c8_cleanup_on_every_exit.1 cfgC4 envI 1 0 none [] [] _ (by decide)⟩

/-- Witness: a header containing only `iteration: 5` deserializes with the
defaults and the stripped body as prompt. -/
theorem c10_partial_header_defaults_witness :
    (1 : Nat) ≤ 5 ∧
    LoopState.from_markdown dtW
        ("---\niteration: ".data ++ natStr 5 ++ "\n---".data ++ " Do the thing ".data) =
      some ⟨true, 5, 1, 0, "COMPLETE".data, dtW, pyStrip " Do the thing ".data⟩ :=
  ⟨by decide, c10_partial_header_defaults.2 dtW 5 " Do the thing ".data (by decide)⟩

end RalphWiggum
